import Mathlib

/-!
Verification of the `cloudflare-worker-rollbar` client.

This file shallowly embeds the parts of the repository that the verified
properties are about:

* the sensitive-data scrubber `scrubObject` and the header scrubber
  `scrubHeaders` (src/src/client.ts),
* the stack-trace normalizer `parseStackFrames` / `parseStackLine`
  (src/src/stack-parser.ts, shipped concatenated in example/index.ts),
* the client constructor, `withPerson`, `buildPayload`, `send` and the
  request-handler wrapper `wrap` (src/src/client.ts).

JavaScript objects are modelled with an explicit heap (a finite association
list from addresses to field lists), so that reference identity, sharing and
circular structures are represented faithfully; the `WeakSet` of visited
objects becomes an explicit list of addresses threaded through the recursion
exactly as the mutated `WeakSet` is shared across sibling recursive calls in
the source.  The unbounded JS recursion is embedded with a fuel parameter;
`scrub_total_obj` below proves that the fuel chosen by the wrapper
`scrubObject` is always sufficient, which is the termination guarantee of the
source algorithm.
-/

/-- A JavaScript value stored in an object field: a primitive, `null`, or a
reference to another object in the heap.  (`typeof x === 'object' && x !== null`
in the source corresponds exactly to the `ref` constructor.) -/
inductive JsVal where
  | str (s : String)
  | num (n : Int)
  | bool (b : Bool)
  | null
  | ref (a : Nat)
deriving DecidableEq, Repr

/-- The result of scrubbing: a pure tree (the scrubbed copy built by
`scrubObject` contains no references back into the caller's heap). -/
inductive SVal where
  | str (s : String)
  | num (n : Int)
  | bool (b : Bool)
  | null
  | obj (fields : List (String × SVal))

/-- A JS heap: addresses mapped to objects (ordered field lists, as
`Object.keys` enumerates keys in insertion order). -/
abbrev Heap : Type := List (Nat × List (String × JsVal))

/-- The fields of the object at address `a` (an address absent from the heap
behaves as an empty object). -/
def lookupObj (h : Heap) (a : Nat) : List (String × JsVal) :=
  (List.lookup a h).getD []

/-- `DEFAULT_SCRUB_FIELDS` from src/src/client.ts. -/
def DEFAULT_SCRUB_FIELDS : List String :=
  ["password", "secret", "token", "accessToken", "access_token", "apiKey",
   "api_key", "credential"]

/-- `DEFAULT_SCRUB_HEADERS` from src/src/client.ts. -/
def DEFAULT_SCRUB_HEADERS : List String :=
  ["authorization", "cookie", "set-cookie", "x-api-key", "x-auth-token"]

/-- The literal `'[SCRUBBED]'`. -/
def scrubbedLit : String := "[SCRUBBED]"

/-- The literal `'[Circular Reference]'`. -/
def circularLit : String := "[Circular Reference]"

/-- `String.prototype.toLowerCase` on one character (ASCII case folding,
which is what the scrub-field and header names exercise). -/
def lowerChar (c : Char) : Char :=
  if 'A' ≤ c && c ≤ 'Z' then Char.ofNat (c.toNat + 32) else c

/-- `s.toLowerCase()`. -/
def lowerStr (s : String) : String := String.mk (s.data.map lowerChar)

/-- `lowerFields.includes(key.toLowerCase())` with
`lowerFields = scrubFields.map(f => f.toLowerCase())`: case-insensitive exact
match of a key against the scrub-field list. -/
def isSensitive (sf : List String) (k : String) : Bool :=
  (sf.map lowerStr).contains (lowerStr k)

/-- The body of the `for (const key of Object.keys(result))` loop of
`scrubObject`, processing the remaining fields `l` with the current visited
set.  `recur` is the recursive call `scrubObject(value, scrubFields, visited)`
made on nested objects (supplied with one unit of fuel less by `scrubObjF`).
Field order is preserved, as the loop mutates a shallow copy in place. -/
def scrubFldsGo (recur : List Nat → Nat → Option (SVal × List Nat))
    (sf : List String) (l : List (String × JsVal)) (visited : List Nat) :
    Option (List (String × SVal) × List Nat) :=
  match l with
  | [] => some ([], visited)
  | (k, v) :: rest =>
    if isSensitive sf k then
      -- result[key] = '[SCRUBBED]'
      match scrubFldsGo recur sf rest visited with
      | none => none
      | some (out, vis) => some ((k, SVal.str scrubbedLit) :: out, vis)
    else
      match v with
      | JsVal.ref b =>
        -- typeof result[key] === 'object' && result[key] !== null
        if visited.contains b then
          -- result[key] = '[Circular Reference]'
          match scrubFldsGo recur sf rest visited with
          | none => none
          | some (out, vis) => some ((k, SVal.str circularLit) :: out, vis)
        else
          -- result[key] = scrubObject(result[key], scrubFields, visited)
          match recur visited b with
          | none => none
          | some (r, vis1) =>
            match scrubFldsGo recur sf rest vis1 with
            | none => none
            | some (out, vis2) => some ((k, r) :: out, vis2)
      | JsVal.str s =>
        match scrubFldsGo recur sf rest visited with
        | none => none
        | some (out, vis) => some ((k, SVal.str s) :: out, vis)
      | JsVal.num n =>
        match scrubFldsGo recur sf rest visited with
        | none => none
        | some (out, vis) => some ((k, SVal.num n) :: out, vis)
      | JsVal.bool b =>
        match scrubFldsGo recur sf rest visited with
        | none => none
        | some (out, vis) => some ((k, SVal.bool b) :: out, vis)
      | JsVal.null =>
        match scrubFldsGo recur sf rest visited with
        | none => none
        | some (out, vis) => some ((k, SVal.null) :: out, vis)

/-- `scrubObject(obj, scrubFields, visited)` from src/src/client.ts, on an
object at address `a` of heap `h`.  Fuel bounds the recursion depth; `none`
means the fuel ran out (the totality lemma `scrub_total_obj` shows this never
happens for the fuel chosen by `scrubObject` below).  The returned visited
list is the state of the shared `WeakSet` after the call. -/
def scrubObjF : Nat → Heap → List String → List Nat → Nat →
    Option (SVal × List Nat)
  | 0, _, _, _, _ => none
  | fuel + 1, h, sf, visited, a =>
    -- if (visited.has(obj)) return '[Circular Reference]'
    if visited.contains a then some (SVal.str circularLit, visited)
    else
      -- visited.add(obj); then the for-loop over Object.keys(result)
      match scrubFldsGo (fun vis b => scrubObjF fuel h sf vis b) sf
          (lookupObj h a) (a :: visited) with
      | none => none
      | some (out, vis) => some (SVal.obj out, vis)

/-- The distinct addresses bound in a heap. -/
def heapDom (h : Heap) : List Nat := (h.map Prod.fst).dedup

/-- `scrubObject(obj, scrubFields)` with the default fresh `WeakSet`: enough
fuel for the finite heap, start with an empty visited set. -/
def scrubObject (h : Heap) (sf : List String) (a : Nat) : Option SVal :=
  (scrubObjF ((heapDom h).length + 1) h sf [] a).map Prod.fst

/-! ### Generic association-list helpers -/

theorem lookup_append_left {α β : Type} [BEq α] [LawfulBEq α] (k : α)
    (l1 l2 : List (α × β)) (h : k ∈ l1.map Prod.fst) :
    List.lookup k (l1 ++ l2) = List.lookup k l1 := by
  induction l1 with
  | nil => simp at h
  | cons a t ih =>
    by_cases he : k = a.1
    · simp [List.lookup, he]
    · simp only [List.map_cons, List.mem_cons] at h
      have hb : (k == a.1) = false := beq_eq_false_iff_ne.mpr he
      simp [List.lookup, hb, ih (h.resolve_left he)]

theorem lookup_append_right {α β : Type} [BEq α] [LawfulBEq α] (k : α)
    (l1 l2 : List (α × β)) (h : k ∉ l1.map Prod.fst) :
    List.lookup k (l1 ++ l2) = List.lookup k l2 := by
  induction l1 with
  | nil => rfl
  | cons a t ih =>
    simp only [List.map_cons, List.mem_cons, not_or] at h
    have hb : (k == a.1) = false := beq_eq_false_iff_ne.mpr h.1
    simp [List.lookup, hb, ih h.2]

theorem lookup_none_of_not_mem {α β : Type} [BEq α] [LawfulBEq α] (k : α)
    (l : List (α × β)) (h : k ∉ l.map Prod.fst) : List.lookup k l = none := by
  induction l with
  | nil => rfl
  | cons a t ih =>
    simp only [List.map_cons, List.mem_cons, not_or] at h
    have hb : (k == a.1) = false := beq_eq_false_iff_ne.mpr h.1
    simp [List.lookup, hb, ih h.2]

theorem mem_of_lookup_some {α β : Type} [BEq α] [LawfulBEq α] {k : α}
    {l : List (α × β)} {v : β} (h : List.lookup k l = some v) :
    k ∈ l.map Prod.fst := by
  induction l with
  | nil => simp [List.lookup] at h
  | cons a t ih =>
    by_cases he : k = a.1
    · simp [he]
    · have hb : (k == a.1) = false := beq_eq_false_iff_ne.mpr he
      simp only [List.lookup, hb] at h
      simp [ih h]

/-! ### Counting unvisited heap addresses (the termination measure) -/

/-- Number of heap addresses not yet in the visited set. -/
def mRem (h : Heap) (vis : List Nat) : Nat :=
  ((heapDom h).filter (fun x => ! vis.contains x)).length

theorem filter_length_le_of_imp {l : List Nat} {p q : Nat → Bool}
    (hpq : ∀ x, p x = true → q x = true) :
    (l.filter p).length ≤ (l.filter q).length :=
  (List.monotone_filter_right l hpq).length_le

theorem filter_length_lt {l : List Nat} {p q : Nat → Bool} {a : Nat}
    (hal : a ∈ l) (hpq : ∀ x, p x = true → q x = true)
    (hpa : p a = false) (hqa : q a = true) :
    (l.filter p).length < (l.filter q).length := by
  induction l with
  | nil => cases hal
  | cons y t ih =>
    rcases List.mem_cons.mp hal with hy | ht
    · subst hy
      simp only [List.filter_cons, hpa, hqa]
      simpa using Nat.lt_succ_of_le (filter_length_le_of_imp hpq)
    · by_cases hpy : p y = true
      · have hqy := hpq y hpy
        simp only [List.filter_cons, hpy, hqy]
        simpa using ih ht
      · rw [Bool.not_eq_true] at hpy
        cases hqy : q y
        · simp only [List.filter_cons, hpy, hqy]
          simpa using ih ht
        · simp only [List.filter_cons, hpy, hqy]
          simpa using Nat.lt_succ_of_lt (ih ht)

theorem mRem_mono {h : Heap} {vis vis' : List Nat} (hsub : vis ⊆ vis') :
    mRem h vis' ≤ mRem h vis := by
  refine filter_length_le_of_imp ?_
  intro x hx
  simp only [Bool.not_eq_true'] at hx ⊢
  rcases hc : vis.contains x with _ | _
  · rfl
  · exfalso
    have hx1 : x ∈ vis := by simpa using hc
    have hx2 : x ∉ vis' := by simpa using hx
    exact hx2 (hsub hx1)

theorem mRem_strict {h : Heap} {vis : List Nat} {a : Nat}
    (ha : a ∈ heapDom h) (hnv : vis.contains a = false) :
    mRem h (a :: vis) < mRem h vis := by
  refine filter_length_lt ha ?_ ?_ ?_
  · intro x hx
    simp only [Bool.not_eq_true'] at hx ⊢
    simp only [List.contains_cons] at hx
    exact (Bool.or_eq_false_iff.mp hx).2
  · simp
  · simpa using hnv

/-! ### The visited set only grows -/

theorem fldsGo_mono {recur : List Nat → Nat → Option (SVal × List Nat)}
    {sf : List String}
    (hrec : ∀ vis b r v2, recur vis b = some (r, v2) → vis ⊆ v2) :
    ∀ l vis o v2, scrubFldsGo recur sf l vis = some (o, v2) → vis ⊆ v2 := by
  intro l
  induction l with
  | nil =>
    intro vis o v2 hs
    simp only [scrubFldsGo, Option.some.injEq, Prod.mk.injEq] at hs
    rw [← hs.2]
    exact fun x hx => hx
  | cons kv rest ih =>
    obtain ⟨k, v⟩ := kv
    intro vis o v2 hs
    simp only [scrubFldsGo] at hs
    by_cases hsen : isSensitive sf k
    · rw [if_pos hsen] at hs
      cases hr : scrubFldsGo recur sf rest vis with
      | none => rw [hr] at hs; simp at hs
      | some pr =>
        obtain ⟨out, vis'⟩ := pr
        rw [hr] at hs
        simp only [Option.some.injEq, Prod.mk.injEq] at hs
        rw [← hs.2]
        exact ih vis out vis' hr
    · rw [if_neg hsen] at hs
      cases v with
      | ref b =>
        dsimp only at hs
        by_cases hb : vis.contains b
        · rw [if_pos hb] at hs
          cases hr : scrubFldsGo recur sf rest vis with
          | none => rw [hr] at hs; simp at hs
          | some pr =>
            obtain ⟨out, vis'⟩ := pr
            rw [hr] at hs
            simp only [Option.some.injEq, Prod.mk.injEq] at hs
            rw [← hs.2]
            exact ih vis out vis' hr
        · rw [if_neg hb] at hs
          cases hro : recur vis b with
          | none => rw [hro] at hs; simp at hs
          | some pr1 =>
            obtain ⟨r, vis1⟩ := pr1
            rw [hro] at hs
            dsimp only at hs
            cases hr : scrubFldsGo recur sf rest vis1 with
            | none => rw [hr] at hs; simp at hs
            | some pr2 =>
              obtain ⟨out, vis'⟩ := pr2
              rw [hr] at hs
              simp only [Option.some.injEq, Prod.mk.injEq] at hs
              rw [← hs.2]
              exact Trans.trans (hrec vis b r vis1 hro) (ih vis1 out vis' hr)
      | str s =>
        dsimp only at hs
        cases hr : scrubFldsGo recur sf rest vis with
        | none => rw [hr] at hs; simp at hs
        | some pr =>
          obtain ⟨out, vis'⟩ := pr
          rw [hr] at hs
          simp only [Option.some.injEq, Prod.mk.injEq] at hs
          rw [← hs.2]
          exact ih vis out vis' hr
      | num n =>
        dsimp only at hs
        cases hr : scrubFldsGo recur sf rest vis with
        | none => rw [hr] at hs; simp at hs
        | some pr =>
          obtain ⟨out, vis'⟩ := pr
          rw [hr] at hs
          simp only [Option.some.injEq, Prod.mk.injEq] at hs
          rw [← hs.2]
          exact ih vis out vis' hr
      | bool b =>
        dsimp only at hs
        cases hr : scrubFldsGo recur sf rest vis with
        | none => rw [hr] at hs; simp at hs
        | some pr =>
          obtain ⟨out, vis'⟩ := pr
          rw [hr] at hs
          simp only [Option.some.injEq, Prod.mk.injEq] at hs
          rw [← hs.2]
          exact ih vis out vis' hr
      | null =>
        dsimp only at hs
        cases hr : scrubFldsGo recur sf rest vis with
        | none => rw [hr] at hs; simp at hs
        | some pr =>
          obtain ⟨out, vis'⟩ := pr
          rw [hr] at hs
          simp only [Option.some.injEq, Prod.mk.injEq] at hs
          rw [← hs.2]
          exact ih vis out vis' hr

theorem scrub_mono_obj :
    ∀ fuel (h : Heap) sf vis a r v2,
      scrubObjF fuel h sf vis a = some (r, v2) → vis ⊆ v2 := by
  intro fuel
  induction fuel with
  | zero => intro h sf vis a r v2 hs; simp [scrubObjF] at hs
  | succ f ih =>
    intro h sf vis a r v2 hs
    rw [scrubObjF] at hs
    by_cases hv : vis.contains a
    · rw [if_pos hv] at hs
      simp only [Option.some.injEq, Prod.mk.injEq] at hs
      rw [← hs.2]
      exact fun x hx => hx
    · rw [if_neg hv] at hs
      cases hgo : scrubFldsGo (fun vis b => scrubObjF f h sf vis b) sf
          (lookupObj h a) (a :: vis) with
      | none => rw [hgo] at hs; simp at hs
      | some pr =>
        obtain ⟨out, visg⟩ := pr
        rw [hgo] at hs
        simp only [Option.some.injEq, Prod.mk.injEq] at hs
        have hsub := fldsGo_mono
          (fun vis b r v2 hx => ih h sf vis b r v2 hx) _ _ _ _ hgo
        rw [← hs.2]
        exact fun x hx => hsub (List.mem_cons_of_mem a hx)

/-! ### Termination: the fuel chosen by `scrubObject` is always sufficient -/

theorem fldsGo_total {recur : List Nat → Nat → Option (SVal × List Nat)}
    {sf : List String} {h : Heap} {F : Nat}
    (hrec : ∀ vis b, mRem h vis < F → (recur vis b).isSome)
    (hmono : ∀ vis b r v2, recur vis b = some (r, v2) → vis ⊆ v2) :
    ∀ l vis, mRem h vis < F → (scrubFldsGo recur sf l vis).isSome := by
  intro l
  induction l with
  | nil => intro vis hv; simp [scrubFldsGo]
  | cons kv rest ih =>
    obtain ⟨k, v⟩ := kv
    intro vis hv
    simp only [scrubFldsGo]
    by_cases hsen : isSensitive sf k
    · rw [if_pos hsen]
      cases hr : scrubFldsGo recur sf rest vis with
      | none => have hsome := ih vis hv; rw [hr] at hsome; simp at hsome
      | some pr => obtain ⟨out, vis'⟩ := pr; simp
    · rw [if_neg hsen]
      cases v with
      | ref b =>
        dsimp only
        by_cases hb : vis.contains b
        · rw [if_pos hb]
          cases hr : scrubFldsGo recur sf rest vis with
          | none => have hsome := ih vis hv; rw [hr] at hsome; simp at hsome
          | some pr => obtain ⟨out, vis'⟩ := pr; simp
        · rw [if_neg hb]
          cases hro : recur vis b with
          | none => have hsome := hrec vis b hv; rw [hro] at hsome; simp at hsome
          | some pr1 =>
            obtain ⟨r, vis1⟩ := pr1
            dsimp only
            have hsub : vis ⊆ vis1 := hmono vis b r vis1 hro
            have hv1 : mRem h vis1 < F := lt_of_le_of_lt (mRem_mono hsub) hv
            cases hr : scrubFldsGo recur sf rest vis1 with
            | none => have hsome := ih vis1 hv1; rw [hr] at hsome; simp at hsome
            | some pr2 => obtain ⟨out, vis2⟩ := pr2; simp
      | str s =>
        dsimp only
        cases hr : scrubFldsGo recur sf rest vis with
        | none => have hsome := ih vis hv; rw [hr] at hsome; simp at hsome
        | some pr => obtain ⟨out, vis'⟩ := pr; simp
      | num n =>
        dsimp only
        cases hr : scrubFldsGo recur sf rest vis with
        | none => have hsome := ih vis hv; rw [hr] at hsome; simp at hsome
        | some pr => obtain ⟨out, vis'⟩ := pr; simp
      | bool b =>
        dsimp only
        cases hr : scrubFldsGo recur sf rest vis with
        | none => have hsome := ih vis hv; rw [hr] at hsome; simp at hsome
        | some pr => obtain ⟨out, vis'⟩ := pr; simp
      | null =>
        dsimp only
        cases hr : scrubFldsGo recur sf rest vis with
        | none => have hsome := ih vis hv; rw [hr] at hsome; simp at hsome
        | some pr => obtain ⟨out, vis'⟩ := pr; simp

theorem scrub_total_obj :
    ∀ fuel (h : Heap) sf vis a,
      mRem h vis < fuel → (scrubObjF fuel h sf vis a).isSome := by
  intro fuel
  induction fuel with
  | zero => intro h sf vis a hlt; exact absurd hlt (Nat.not_lt_zero _)
  | succ f ih =>
    intro h sf vis a hlt
    rw [scrubObjF]
    by_cases hv : vis.contains a
    · rw [if_pos hv]; simp
    · rw [if_neg hv]
      by_cases hdom : a ∈ heapDom h
      · have hv' : vis.contains a = false := by rwa [Bool.not_eq_true] at hv
        have hlt1 : mRem h (a :: vis) < f :=
          lt_of_lt_of_le (mRem_strict hdom hv') (Nat.lt_succ_iff.mp hlt)
        have hsome := @fldsGo_total (fun vis b => scrubObjF f h sf vis b)
          sf h f
          (fun vis b hb => ih h sf vis b hb)
          (fun vis b r v2 hx => scrub_mono_obj f h sf vis b r v2 hx)
          (lookupObj h a) (a :: vis) hlt1
        cases hr : scrubFldsGo (fun vis b => scrubObjF f h sf vis b) sf
            (lookupObj h a) (a :: vis) with
        | none => rw [hr] at hsome; simp at hsome
        | some pr => obtain ⟨out, visg⟩ := pr; simp
      · have hnil : lookupObj h a = [] := by
          unfold lookupObj
          rw [lookup_none_of_not_mem]
          · rfl
          · intro hmem
            exact hdom (by simpa [heapDom, List.mem_dedup] using hmem)
        rw [hnil]
        simp [scrubFldsGo]

/-- `scrubObject` never runs out of fuel: scrubbing terminates with a result
on every finite heap, cycles included. -/
theorem scrubObject_total (h : Heap) (sf : List String) (a : Nat) :
    (scrubObject h sf a).isSome := by
  unfold scrubObject
  have hm : mRem h [] < (heapDom h).length + 1 := by
    unfold mRem
    have hle := List.length_filter_le (fun x => ! List.contains [] x) (heapDom h)
    omega
  have hs := scrub_total_obj ((heapDom h).length + 1) h sf [] a hm
  cases hr : scrubObjF ((heapDom h).length + 1) h sf [] a with
  | none => rw [hr] at hs; simp at hs
  | some pr => simp [hr]

/-! ### Pointwise behaviour of the field loop -/

/-- `true` on JS values that are not objects (the loop leaves them alone
unless their key is sensitive). -/
def isPrim : JsVal → Bool
  | JsVal.ref _ => false
  | _ => true

/-- Embeds a primitive `JsVal` into the scrub output (the `ref` case is
arbitrary; it is only used under an `isPrim` guard). -/
def primS : JsVal → SVal
  | JsVal.str s => SVal.str s
  | JsVal.num n => SVal.num n
  | JsVal.bool b => SVal.bool b
  | JsVal.null => SVal.null
  | JsVal.ref _ => SVal.null

/-- What one loop iteration does to a field whose value is not descended
into: sensitive keys are masked, references (necessarily already visited)
become the circular marker, primitives pass through. -/
def stepF (sf : List String) (kv : String × JsVal) : String × SVal :=
  if isSensitive sf kv.1 then (kv.1, SVal.str scrubbedLit)
  else
    match kv.2 with
    | JsVal.ref _ => (kv.1, SVal.str circularLit)
    | v => (kv.1, primS v)

/-- When every field is sensitive, primitive, or a reference to an
already-visited object, the loop is a pure `map` and the visited set is
unchanged. -/
theorem fldsGo_noDescend {recur : List Nat → Nat → Option (SVal × List Nat)}
    {sf : List String} {vis : List Nat} :
    ∀ l, (∀ kv ∈ l, isSensitive sf kv.1 = true ∨
            (∀ c, kv.2 = JsVal.ref c → vis.contains c = true)) →
      scrubFldsGo recur sf l vis = some (l.map (stepF sf), vis) := by
  intro l
  induction l with
  | nil => intro _; simp [scrubFldsGo]
  | cons kv rest ih =>
    intro hl
    obtain ⟨k, v⟩ := kv
    have hhead := hl (k, v) (List.mem_cons_self _ _)
    have htail := fun kv hm => hl kv (List.mem_cons_of_mem _ hm)
    simp only [scrubFldsGo]
    by_cases hsen : isSensitive sf k
    · rw [if_pos hsen, ih htail]
      simp [stepF, hsen]
    · rw [if_neg hsen]
      cases v with
      | ref c =>
        dsimp only
        have hc : vis.contains c = true := by
          rcases hhead with hs | hr
          · exact absurd hs hsen
          · exact hr c rfl
        rw [if_pos hc, ih htail]
        simp [stepF, hsen]
      | str s =>
        dsimp only
        rw [ih htail]
        simp [stepF, hsen, primS]
      | num n =>
        dsimp only
        rw [ih htail]
        simp [stepF, hsen, primS]
      | bool b =>
        dsimp only
        rw [ih htail]
        simp [stepF, hsen, primS]
      | null =>
        dsimp only
        rw [ih htail]
        simp [stepF, hsen, primS]

/-- Processing a concatenation is processing the first part, then the second
with the visited set the first part produced. -/
theorem fldsGo_append {recur : List Nat → Nat → Option (SVal × List Nat)}
    {sf : List String} :
    ∀ xs ys vis, scrubFldsGo recur sf (xs ++ ys) vis =
      match scrubFldsGo recur sf xs vis with
      | none => none
      | some (o1, v1) =>
        match scrubFldsGo recur sf ys v1 with
        | none => none
        | some (o2, v2) => some (o1 ++ o2, v2) := by
  intro xs
  induction xs with
  | nil =>
    intro ys vis
    simp only [List.nil_append, scrubFldsGo]
    cases hys : scrubFldsGo recur sf ys vis with
    | none => rfl
    | some pr => obtain ⟨o2, v2⟩ := pr; simp
  | cons kv rest ih =>
    intro ys vis
    obtain ⟨k, v⟩ := kv
    simp only [List.cons_append, scrubFldsGo, List.append_eq]
    by_cases hsen : isSensitive sf k
    · simp only [if_pos hsen]
      rw [ih]
      cases hr : scrubFldsGo recur sf rest vis with
      | none => rfl
      | some pr1 =>
        obtain ⟨o1, v1⟩ := pr1
        dsimp only
        cases hys : scrubFldsGo recur sf ys v1 with
        | none => rfl
        | some pr2 => obtain ⟨o2, v2⟩ := pr2; simp
    · simp only [if_neg hsen]
      cases v with
      | ref b =>
        dsimp only
        by_cases hb : vis.contains b
        · simp only [if_pos hb]
          rw [ih]
          cases hr : scrubFldsGo recur sf rest vis with
          | none => rfl
          | some pr1 =>
            obtain ⟨o1, v1⟩ := pr1
            dsimp only
            cases hys : scrubFldsGo recur sf ys v1 with
            | none => rfl
            | some pr2 => obtain ⟨o2, v2⟩ := pr2; simp
        · simp only [if_neg hb]
          cases hro : recur vis b with
          | none => rfl
          | some pr0 =>
            obtain ⟨r, vis1⟩ := pr0
            dsimp only
            rw [ih]
            cases hr : scrubFldsGo recur sf rest vis1 with
            | none => rfl
            | some pr1 =>
              obtain ⟨o1, v1⟩ := pr1
              dsimp only
              cases hys : scrubFldsGo recur sf ys v1 with
              | none => rfl
              | some pr2 => obtain ⟨o2, v2⟩ := pr2; simp
      | str s =>
        dsimp only
        rw [ih]
        cases hr : scrubFldsGo recur sf rest vis with
        | none => rfl
        | some pr1 =>
          obtain ⟨o1, v1⟩ := pr1
          dsimp only
          cases hys : scrubFldsGo recur sf ys v1 with
          | none => rfl
          | some pr2 => obtain ⟨o2, v2⟩ := pr2; simp
      | num n =>
        dsimp only
        rw [ih]
        cases hr : scrubFldsGo recur sf rest vis with
        | none => rfl
        | some pr1 =>
          obtain ⟨o1, v1⟩ := pr1
          dsimp only
          cases hys : scrubFldsGo recur sf ys v1 with
          | none => rfl
          | some pr2 => obtain ⟨o2, v2⟩ := pr2; simp
      | bool b =>
        dsimp only
        rw [ih]
        cases hr : scrubFldsGo recur sf rest vis with
        | none => rfl
        | some pr1 =>
          obtain ⟨o1, v1⟩ := pr1
          dsimp only
          cases hys : scrubFldsGo recur sf ys v1 with
          | none => rfl
          | some pr2 => obtain ⟨o2, v2⟩ := pr2; simp
      | null =>
        dsimp only
        rw [ih]
        cases hr : scrubFldsGo recur sf rest vis with
        | none => rfl
        | some pr1 =>
          obtain ⟨o1, v1⟩ := pr1
          dsimp only
          cases hys : scrubFldsGo recur sf ys v1 with
          | none => rfl
          | some pr2 => obtain ⟨o2, v2⟩ := pr2; simp

/-- Top-level scrub of an object none of whose fields require descending
into a different object: the result is a pure `map` over the fields and the
only object ever added to the visited set is the root itself. -/
theorem objF_noDescend {h : Heap} {sf : List String} {a : Nat}
    {fA : List (String × JsVal)} (fuel : Nat)
    (hA : List.lookup a h = some fA)
    (hfields : ∀ kv ∈ fA, isSensitive sf kv.1 = true ∨
      (∀ c, kv.2 = JsVal.ref c → c = a)) :
    scrubObjF (fuel + 1) h sf [] a =
      some (SVal.obj (fA.map (stepF sf)), [a]) := by
  rw [scrubObjF]
  rw [if_neg (by simp)]
  have hl : lookupObj h a = fA := by unfold lookupObj; rw [hA]; rfl
  rw [hl]
  rw [fldsGo_noDescend fA ?_]
  · intro kv hkv
    rcases hfields kv hkv with hs | hr
    · exact Or.inl hs
    · refine Or.inr fun c hc => ?_
      rw [hr c hc]
      simp

/-- Scrub of an object whose fields are no-descend except for one reference
to a second object `b`, itself no-descend (its references may point back to
`a` or `b`: those become circular markers).  Covers both the
child-pointing-back-to-ancestor cycle and the nested-person payload. -/
theorem objF_twoLevel {h : Heap} {sf : List String} {a b : Nat}
    {u w fB : List (String × JsVal)} {kb : String} (fuel : Nat)
    (hA : List.lookup a h = some (u ++ (kb, JsVal.ref b) :: w))
    (hB : List.lookup b h = some fB)
    (hab : b ≠ a)
    (hkb : isSensitive sf kb = false)
    (hu : ∀ kv ∈ u, isSensitive sf kv.1 = true ∨
      (∀ c, kv.2 = JsVal.ref c → c = a))
    (hfB : ∀ kv ∈ fB, isSensitive sf kv.1 = true ∨
      (∀ c, kv.2 = JsVal.ref c → c = a ∨ c = b))
    (hw : ∀ kv ∈ w, isSensitive sf kv.1 = true ∨
      (∀ c, kv.2 = JsVal.ref c → c = a ∨ c = b)) :
    scrubObjF (fuel + 2) h sf [] a =
      some (SVal.obj (u.map (stepF sf) ++
        (kb, SVal.obj (fB.map (stepF sf))) :: w.map (stepF sf)), [b, a]) := by
  have hu2 : ∀ kv ∈ u, isSensitive sf kv.1 = true ∨
      (∀ c, kv.2 = JsVal.ref c → List.contains [a] c = true) := by
    intro kv hkv
    rcases hu kv hkv with hs | hr
    · exact Or.inl hs
    · refine Or.inr fun c hc => ?_
      rw [hr c hc]
      simp
  have hfB2 : ∀ kv ∈ fB, isSensitive sf kv.1 = true ∨
      (∀ c, kv.2 = JsVal.ref c → List.contains [b, a] c = true) := by
    intro kv hkv
    rcases hfB kv hkv with hs | hr
    · exact Or.inl hs
    · refine Or.inr fun c hc => ?_
      rcases hr c hc with h1 | h1 <;> simp [h1]
  have hw2 : ∀ kv ∈ w, isSensitive sf kv.1 = true ∨
      (∀ c, kv.2 = JsVal.ref c → List.contains [b, a] c = true) := by
    intro kv hkv
    rcases hw kv hkv with hs | hr
    · exact Or.inl hs
    · refine Or.inr fun c hc => ?_
      rcases hr c hc with h1 | h1 <;> simp [h1]
  have hcb : List.contains [a] b = false := by
    simp [List.contains_cons]
    exact hab
  show scrubObjF ((fuel + 1) + 1) h sf [] a = _
  rw [scrubObjF]
  rw [if_neg (by simp)]
  have hl : lookupObj h a = u ++ (kb, JsVal.ref b) :: w := by
    unfold lookupObj; rw [hA]; rfl
  rw [hl]
  rw [fldsGo_append u ((kb, JsVal.ref b) :: w) [a]]
  rw [fldsGo_noDescend u hu2]
  dsimp only
  simp only [scrubFldsGo]
  rw [if_neg (by simp [hkb])]
  rw [if_neg (by simp; exact hab)]
  rw [scrubObjF]
  rw [if_neg (by simp; exact hab)]
  have hlb : lookupObj h b = fB := by unfold lookupObj; rw [hB]; rfl
  rw [hlb]
  rw [fldsGo_noDescend fB hfB2]
  dsimp only
  rw [fldsGo_noDescend w hw2]

/-- Whenever the field loop succeeds, the output has the same keys in the
same order; a sensitive key's value is the scrubbed marker whatever it was,
and a non-sensitive primitive value passes through unchanged. -/
theorem fldsGo_shape {recur : List Nat → Nat → Option (SVal × List Nat)}
    {sf : List String} :
    ∀ l vis out v2, scrubFldsGo recur sf l vis = some (out, v2) →
      out.length = l.length ∧
      ∀ i (hi : i < l.length) (ho : i < out.length),
        (out.get ⟨i, ho⟩).1 = (l.get ⟨i, hi⟩).1 ∧
        (isSensitive sf (l.get ⟨i, hi⟩).1 = true →
          (out.get ⟨i, ho⟩).2 = SVal.str scrubbedLit) ∧
        (isSensitive sf (l.get ⟨i, hi⟩).1 = false →
          isPrim (l.get ⟨i, hi⟩).2 = true →
          (out.get ⟨i, ho⟩).2 = primS (l.get ⟨i, hi⟩).2) := by
  intro l
  induction l with
  | nil =>
    intro vis out v2 hs
    simp only [scrubFldsGo, Option.some.injEq, Prod.mk.injEq] at hs
    rw [← hs.1]
    exact ⟨rfl, fun i hi => absurd hi (by simp)⟩
  | cons kv rest ih =>
    obtain ⟨k, v⟩ := kv
    intro vis out v2 hs
    simp only [scrubFldsGo] at hs
    by_cases hsen : isSensitive sf k
    · rw [if_pos hsen] at hs
      cases hr : scrubFldsGo recur sf rest vis with
      | none => rw [hr] at hs; simp at hs
      | some pr =>
        obtain ⟨o1, v1⟩ := pr
        rw [hr] at hs
        simp only [Option.some.injEq, Prod.mk.injEq] at hs
        rw [← hs.1]
        obtain ⟨hlen, hpt⟩ := ih vis o1 v1 hr
        refine ⟨by simp [hlen], ?_⟩
        intro i hi ho
        match i with
        | 0 =>
          exact ⟨rfl, fun _ => rfl,
            fun hns _ => absurd (show isSensitive sf k = false by simpa using hns)
              (by simp [hsen])⟩
        | j + 1 =>
          have hj : j < rest.length := by simpa using hi
          have hoj : j < o1.length := by simpa using ho
          simpa using hpt j hj hoj
    · rw [if_neg hsen] at hs
      have hsen' : isSensitive sf k = false := by rwa [Bool.not_eq_true] at hsen
      cases v with
      | ref b =>
        dsimp only at hs
        by_cases hb : vis.contains b
        · rw [if_pos hb] at hs
          cases hr : scrubFldsGo recur sf rest vis with
          | none => rw [hr] at hs; simp at hs
          | some pr =>
            obtain ⟨o1, v1⟩ := pr
            rw [hr] at hs
            simp only [Option.some.injEq, Prod.mk.injEq] at hs
            rw [← hs.1]
            obtain ⟨hlen, hpt⟩ := ih vis o1 v1 hr
            refine ⟨by simp [hlen], ?_⟩
            intro i hi ho
            match i with
            | 0 =>
              refine ⟨rfl, fun hcon => absurd hcon (by simp [hsen']), ?_⟩
              intro _ hpr
              simp [isPrim] at hpr
            | j + 1 =>
              have hj : j < rest.length := by simpa using hi
              have hoj : j < o1.length := by simpa using ho
              simpa using hpt j hj hoj
        · rw [if_neg hb] at hs
          cases hro : recur vis b with
          | none => rw [hro] at hs; simp at hs
          | some pr0 =>
            obtain ⟨r, vis1⟩ := pr0
            rw [hro] at hs
            dsimp only at hs
            cases hr : scrubFldsGo recur sf rest vis1 with
            | none => rw [hr] at hs; simp at hs
            | some pr =>
              obtain ⟨o1, v1⟩ := pr
              rw [hr] at hs
              simp only [Option.some.injEq, Prod.mk.injEq] at hs
              rw [← hs.1]
              obtain ⟨hlen, hpt⟩ := ih vis1 o1 v1 hr
              refine ⟨by simp [hlen], ?_⟩
              intro i hi ho
              match i with
              | 0 =>
                refine ⟨rfl, fun hcon => absurd hcon (by simp [hsen']), ?_⟩
                intro _ hpr
                simp [isPrim] at hpr
              | j + 1 =>
                have hj : j < rest.length := by simpa using hi
                have hoj : j < o1.length := by simpa using ho
                simpa using hpt j hj hoj
      | str sx =>
        dsimp only at hs
        cases hr : scrubFldsGo recur sf rest vis with
        | none => rw [hr] at hs; simp at hs
        | some pr =>
          obtain ⟨o1, v1⟩ := pr
          rw [hr] at hs
          simp only [Option.some.injEq, Prod.mk.injEq] at hs
          rw [← hs.1]
          obtain ⟨hlen, hpt⟩ := ih vis o1 v1 hr
          refine ⟨by simp [hlen], ?_⟩
          intro i hi ho
          match i with
          | 0 => exact ⟨rfl, fun hcon => absurd hcon (by simp [hsen']), fun _ _ => rfl⟩
          | j + 1 =>
            have hj : j < rest.length := by simpa using hi
            have hoj : j < o1.length := by simpa using ho
            simpa using hpt j hj hoj
      | num n =>
        dsimp only at hs
        cases hr : scrubFldsGo recur sf rest vis with
        | none => rw [hr] at hs; simp at hs
        | some pr =>
          obtain ⟨o1, v1⟩ := pr
          rw [hr] at hs
          simp only [Option.some.injEq, Prod.mk.injEq] at hs
          rw [← hs.1]
          obtain ⟨hlen, hpt⟩ := ih vis o1 v1 hr
          refine ⟨by simp [hlen], ?_⟩
          intro i hi ho
          match i with
          | 0 => exact ⟨rfl, fun hcon => absurd hcon (by simp [hsen']), fun _ _ => rfl⟩
          | j + 1 =>
            have hj : j < rest.length := by simpa using hi
            have hoj : j < o1.length := by simpa using ho
            simpa using hpt j hj hoj
      | bool bb =>
        dsimp only at hs
        cases hr : scrubFldsGo recur sf rest vis with
        | none => rw [hr] at hs; simp at hs
        | some pr =>
          obtain ⟨o1, v1⟩ := pr
          rw [hr] at hs
          simp only [Option.some.injEq, Prod.mk.injEq] at hs
          rw [← hs.1]
          obtain ⟨hlen, hpt⟩ := ih vis o1 v1 hr
          refine ⟨by simp [hlen], ?_⟩
          intro i hi ho
          match i with
          | 0 => exact ⟨rfl, fun hcon => absurd hcon (by simp [hsen']), fun _ _ => rfl⟩
          | j + 1 =>
            have hj : j < rest.length := by simpa using hi
            have hoj : j < o1.length := by simpa using ho
            simpa using hpt j hj hoj
      | null =>
        dsimp only at hs
        cases hr : scrubFldsGo recur sf rest vis with
        | none => rw [hr] at hs; simp at hs
        | some pr =>
          obtain ⟨o1, v1⟩ := pr
          rw [hr] at hs
          simp only [Option.some.injEq, Prod.mk.injEq] at hs
          rw [← hs.1]
          obtain ⟨hlen, hpt⟩ := ih vis o1 v1 hr
          refine ⟨by simp [hlen], ?_⟩
          intro i hi ho
          match i with
          | 0 => exact ⟨rfl, fun hcon => absurd hcon (by simp [hsen']), fun _ _ => rfl⟩
          | j + 1 =>
            have hj : j < rest.length := by simpa using hi
            have hoj : j < o1.length := by simpa using ho
            simpa using hpt j hj hoj

/-! ### Header scrubbing (`scrubHeaders` in src/src/client.ts) -/

/-- `pat` is a prefix of `s` (character lists). -/
def subAt : List Char → List Char → Bool
  | [], _ => true
  | _ :: _, [] => false
  | p :: ps, c :: cs => p == c && subAt ps cs

/-- `pat` occurs contiguously somewhere in `s`: the semantics of
JavaScript's `String.prototype.includes`. -/
def hasSub (pat : List Char) : List Char → Bool
  | [] => subAt pat []
  | c :: cs => subAt pat (c :: cs) || hasSub pat cs

/-- `s.includes(pat)` on strings. -/
def strIncludes (s pat : String) : Bool := hasSub pat.data s.data

/-- `scrubHeaders(headers, additionalScrubFields)` from src/src/client.ts:
a header is masked when its lower-cased name contains any of the default
header markers or extra scrub fields (lower-cased) as a substring. -/
def scrubHeaders (headers : List (String × String))
    (additionalScrubFields : List String) : List (String × String) :=
  let scrubFields := DEFAULT_SCRUB_HEADERS ++ additionalScrubFields
  headers.map (fun kv =>
    if scrubFields.any (fun f => strIncludes (lowerStr kv.1) (lowerStr f)) then
      (kv.1, scrubbedLit)
    else kv)

theorem subAt_iff : ∀ (pat s : List Char),
    subAt pat s = true ↔ ∃ w, s = pat ++ w := by
  intro pat
  induction pat with
  | nil => intro s; simp [subAt]
  | cons p ps ih =>
    intro s
    cases s with
    | nil =>
      simp [subAt]
    | cons c cs =>
      simp only [subAt, Bool.and_eq_true, beq_iff_eq, ih, List.cons_append,
        List.cons.injEq]
      constructor
      · rintro ⟨hpc, w, hw⟩
        exact ⟨w, hpc.symm, hw⟩
      · rintro ⟨w, hcp, hw⟩
        exact ⟨hcp.symm, w, hw⟩

theorem hasSub_iff : ∀ (pat s : List Char),
    hasSub pat s = true ↔ ∃ u w, s = u ++ pat ++ w := by
  intro pat s
  induction s with
  | nil =>
    simp only [hasSub, subAt_iff]
    constructor
    · rintro ⟨w, hw⟩
      exact ⟨[], w, hw⟩
    · rintro ⟨u, w, hw⟩
      have h0 : u ++ pat ++ w = [] := hw.symm
      have h1 : u ++ pat = [] := (List.append_eq_nil.mp h0).1
      have h3 : pat = [] := (List.append_eq_nil.mp h1).2
      exact ⟨[], by rw [h3]; rfl⟩
  | cons c cs ih =>
    simp only [hasSub, Bool.or_eq_true, subAt_iff, ih]
    constructor
    · rintro (⟨w, hw⟩ | ⟨u, w, hw⟩)
      · exact ⟨[], w, by simp [hw]⟩
      · exact ⟨c :: u, w, by simp [hw]⟩
    · rintro ⟨u, w, hw⟩
      cases u with
      | nil => exact Or.inl ⟨w, by simpa using hw⟩
      | cons x xs =>
        simp only [List.cons_append, List.cons.injEq] at hw
        exact Or.inr ⟨xs, w, hw.2⟩

/-- `strIncludes` decides the "contains as contiguous substring" relation. -/
theorem strIncludes_iff (s pat : String) :
    strIncludes s pat = true ↔ ∃ u w, s.data = u ++ pat.data ++ w :=
  hasSub_iff pat.data s.data

/-! ### The Rollbar client (src/src/client.ts) -/

def NOTIFIER_NAME : String := "@triptech/cloudflare-worker-rollbar"

def NOTIFIER_VERSION : String := "2.0.1"

/-- `RollbarConfig` from src/src/types.ts.  The custom payload object is a
heap address (it is an arbitrary JS object shared by reference). -/
structure RollbarConfig where
  accessToken : String
  environment : Option String := none
  codeVersion : Option String := none
  host : Option String := none
  scrubFields : Option (List String) := none
  includeRequestBody : Option Bool := none
  payload : Option Nat := none
  verbose : Option Bool := none

/-- A constructed client: the resolved `this.config` and `this.scrubFields`. -/
structure RollbarClient where
  config : RollbarConfig
  scrubFields : List String

/-- The `Rollbar` constructor.  `!config.accessToken` is truthy-negation on a
string, i.e. the empty string (the type requires the field to be present). -/
def mkRollbar (config : RollbarConfig) : Except String RollbarClient :=
  if config.accessToken = "" then
    Except.error "Rollbar accessToken is required"
  else
    Except.ok
      { config :=
          { config with environment := some (config.environment.getD "production") },
        scrubFields := DEFAULT_SCRUB_FIELDS ++ config.scrubFields.getD [] }

/-- A fresh heap address (strictly larger than every bound address). -/
def freshAddr (h : Heap) : Nat := (h.map Prod.fst).foldr max 0 + 1

/-- JS object-spread update `{...l, k: v}`: an existing key keeps its
position and gets the new value, a new key is appended. -/
def setKeyG {α : Type} (l : List (String × α)) (k : String) (v : α) :
    List (String × α) :=
  if l.any (fun kv => kv.1 == k) then
    l.map (fun kv => if kv.1 == k then (k, v) else kv)
  else l ++ [(k, v)]

/-- JS object-spread merge `{...l1, ...l2}`. -/
def mergeObj {α : Type} (l1 l2 : List (String × α)) : List (String × α) :=
  l2.foldl (fun acc kv => setKeyG acc kv.1 kv.2) l1

/-- `withPerson(person)`: builds `{...this.config, payload:
{...this.config.payload, person}}` (a fresh object allocated in the heap)
and constructs a new client from it.  `personAddr` is the address of the
caller's person object. -/
def withPerson (r : RollbarClient) (h : Heap) (personAddr : Nat) :
    Heap × Except String RollbarClient :=
  let base := match r.config.payload with
    | some a => lookupObj h a
    | none => []
  let newFields := setKeyG base "person" (JsVal.ref personAddr)
  let na := freshAddr h
  (h ++ [(na, newFields)], mkRollbar { r.config with payload := some na })

/-- The request part of a `ReportContext` (body is a heap address). -/
structure RequestCtx where
  url : String
  method : String
  headers : List (String × String)
  params : List (String × String)
  body : Option Nat := none
  userIp : Option String := none

/-- `ReportContext` from src/src/types.ts (person and custom data are heap
addresses: arbitrary JS objects passed by reference). -/
structure ReportContext where
  person : Option Nat := none
  request : Option RequestCtx := none
  custom : Option Nat := none
  fingerprint : Option String := none
  title : Option String := none
  uuid : Option String := none

/-- The request block of the wire payload. -/
structure PayloadRequest where
  url : String
  method : String
  headers : List (String × String)
  params : List (String × String)
  user_ip : Option String
  body : Option (List (String × SVal))

/-- The wire payload assembled by `buildPayload` (the `data.body` variant is
attached afterwards by `reportError` / `logMessage` and is not needed by the
properties below). -/
structure RollbarPayload where
  access_token : String
  environment : String
  level : String
  timestamp : Nat
  platform : String
  language : String
  notifierName : String
  notifierVersion : String
  code_version : Option String
  server_host : Option String
  custom : Option (List (String × SVal))
  person : Option Nat
  request : Option PayloadRequest
  fingerprint : Option String
  title : Option String
  uuid : Option String

/-- The fields of the object produced by a top-level `scrubObject` call (a
top-level call with a fresh visited set always returns an object). -/
def scrubTopFields (h : Heap) (sf : List String) (a : Nat) :
    List (String × SVal) :=
  match scrubObject h sf a with
  | some (SVal.obj l) => l
  | _ => []

/-- `buildPayload(level, context)` from src/src/client.ts; `now` is
`Math.floor(Date.now() / 1000)`. -/
def buildPayload (h : Heap) (r : RollbarClient) (level : String) (now : Nat)
    (context : Option ReportContext) : RollbarPayload :=
  let base : RollbarPayload :=
    { access_token := r.config.accessToken,
      environment := r.config.environment.getD "production",
      level := level,
      timestamp := now,
      platform := "cloudflare-workers",
      language := "javascript",
      notifierName := NOTIFIER_NAME,
      notifierVersion := NOTIFIER_VERSION,
      code_version := r.config.codeVersion,
      server_host := r.config.host,
      custom := none,
      person := none,
      request := none,
      fingerprint := none,
      title := none,
      uuid := none }
  -- if (this.config.payload) { data.custom = {...data.custom, ...scrub(...)} }
  let withCfg :=
    match r.config.payload with
    | some a => { base with custom := some (scrubTopFields h r.scrubFields a) }
    | none => base
  match context with
  | none => withCfg
  | some ctx =>
    let p1 := match ctx.person with
      | some pa => { withCfg with person := some pa }
      | none => withCfg
    let p2 := match ctx.request with
      | some req =>
        { p1 with request := some (
            { url := req.url, method := req.method, headers := req.headers,
              params := req.params, user_ip := req.userIp,
              body :=
                match r.config.includeRequestBody.getD false, req.body with
                | true, some ba => some (scrubTopFields h r.scrubFields ba)
                | _, _ => none : PayloadRequest }) }
      | none => p1
    let p3 := match ctx.custom with
      | some ca =>
        { p2 with custom := some (mergeObj (p2.custom.getD [])
            (scrubTopFields h r.scrubFields ca)) }
      | none => p2
    let p4 := match ctx.fingerprint with
      | some f => { p3 with fingerprint := some f }
      | none => p3
    let p5 := match ctx.title with
      | some t => { p4 with title := some t }
      | none => p4
    match ctx.uuid with
    | some u2 => { p5 with uuid := some u2 }
    | none => p5

/-- `RollbarResponse` from src/src/types.ts. -/
structure RollbarResponse where
  err : Int
  result_uuid : Option String := none
  message : Option String := none
deriving DecidableEq

/-- One console log emitted by `send`. -/
inductive LogEntry where
  | sendingPayload (p : RollbarPayload)
  | responseReceived (r : RollbarResponse)
  | errorResponse (message : Option String)
  | failedSend (e : String)

/-- `send(payload)` from src/src/client.ts.  `transport` is the outcome of
`fetch` + `response.json()` (a transport-level exception from either step is
`Except.error`).  Returns the value given back to the caller and the console
logs, in order. -/
def send (verbose : Bool) (p : RollbarPayload)
    (transport : Except String RollbarResponse) :
    Option RollbarResponse × List LogEntry :=
  let pre := if verbose then [LogEntry.sendingPayload p] else []
  match transport with
  | Except.error e =>
    -- catch: console.error('[Rollbar] Failed to send:', err); return null
    (none, pre ++ [LogEntry.failedSend e])
  | Except.ok result =>
    let mid := if verbose then [LogEntry.responseReceived result] else []
    -- if (result.err !== 0) console.error('[Rollbar] Error response:', ...)
    let post := if result.err ≠ 0 then [LogEntry.errorResponse result.message]
      else []
    (some result, pre ++ mid ++ post)

/-- A JS `Error` object. -/
structure JsError where
  name : String
  message : String
  stack : Option String := none
deriving DecidableEq

/-- Any JS thrown value: an `Error` instance, or anything else (carried as
its `String(err)` form, which is all `wrap` uses of it). -/
inductive Thrown where
  | errObj (e : JsError)
  | nonError (s : String)
deriving DecidableEq

/-- `const error = err instanceof Error ? err : new Error(String(err))`. -/
def toJsError : Thrown → JsError
  | Thrown.errObj e => e
  | Thrown.nonError s => { name := "Error", message := s, stack := none }

/-- A `Response` as far as the wrapper's behaviour is observable. -/
structure ResponseM where
  status : Nat
  body : String
  contentType : Option String := none
deriving DecidableEq

/-- What running a handler (or the wrapped handler) produces. -/
inductive HandlerOutcome where
  | ok (r : ResponseM)
  | threw (t : Thrown)
deriving DecidableEq

/-- `WrapperOptions` (the per-wrapper report context only feeds the report's
content, not the wrapper's control flow, and is omitted). -/
structure WrapperOptions where
  rethrow : Bool := false
  errorResponse : Option (JsError → ResponseM) := none

/-- The control flow of the handler returned by `wrap(handler, options)`:
given the wrapped handler's outcome, whether a report was issued and what
comes out of the wrapper.  On a throw the report is issued first; then the
(converted) error is rethrown, or turned into the custom or default 500
response. -/
def wrapRun (options : WrapperOptions) (outcome : HandlerOutcome) :
    Bool × HandlerOutcome :=
  match outcome with
  | HandlerOutcome.ok r => (false, HandlerOutcome.ok r)
  | HandlerOutcome.threw t =>
    let error := toJsError t
    if options.rethrow then (true, HandlerOutcome.threw (Thrown.errObj error))
    else
      match options.errorResponse with
      | some f => (true, HandlerOutcome.ok (f error))
      | none =>
        (true, HandlerOutcome.ok
          { status := 500,
            body := "\x7b\"error\":\"Internal Server Error\"\x7d",
            contentType := some "application/json" })

/-! ### Stack-trace parsing (src/src/stack-parser.ts)

The three frame grammars of the source are JS regexes.  They are embedded as
backtracking matchers over character lists: each regex piece maps to a
matcher producing the list of possible (capture, remainder) splits in the
order a backtracking regex engine explores them (greedy pieces longest
first, the lazy `.+?` shortest first, optional groups present-first), and a
whole-line match is the first alternative whose remainder is empty (the `$`
anchor; `^` is the starting position). -/

/-- JS `\s` (the practically relevant subset). -/
def isSpc (c : Char) : Bool :=
  c == ' ' || c == '\t' || c == '\n' || c == '\r' || c == '\x0b' || c == '\x0c'

def isDigitC (c : Char) : Bool := '0' ≤ c && c ≤ '9'

/-- JS `\w`. -/
def isWordC (c : Char) : Bool :=
  ('a' ≤ c && c ≤ 'z') || ('A' ≤ c && c ≤ 'Z') || isDigitC c || c == '_'

/-- The method-name class `[\w.<>[\]$]`. -/
def isMethodC (c : Char) : Bool :=
  isWordC c || c == '.' || c == '<' || c == '>' || c == '[' || c == ']' ||
    c == '$'

/-- JS `.` (anything but a line terminator). -/
def isDotC (c : Char) : Bool :=
  !(c == '\n' || c == '\r' || c == ' ' || c == ' ')

/-- The alternatives a matcher produces: capture plus remaining input, in
backtracking priority order. -/
def MRes (α : Type) : Type := List (α × List Char)

def mret {α : Type} (a : α) (s : List Char) : MRes α := [(a, s)]

def mbind {α β : Type} (xs : MRes α) (f : α → List Char → MRes β) : MRes β :=
  xs.flatMap (fun p => f p.1 p.2)

/-- A literal piece of the regex. -/
def mlit : List Char → List Char → MRes Unit
  | [], s => [((), s)]
  | _ :: _, [] => []
  | p :: ps, c :: cs => if p == c then mlit ps cs else []

/-- A greedy `X+` piece: nonempty, longest match first. -/
def greedyPlus (f : Char → Bool) (s : List Char) : MRes (List Char) :=
  let pre := s.takeWhile f
  (List.range pre.length).map (fun i =>
    (s.take (pre.length - i), s.drop (pre.length - i)))

/-- A lazy `X+?` piece: nonempty, shortest match first. -/
def lazyPlus (f : Char → Bool) (s : List Char) : MRes (List Char) :=
  let pre := s.takeWhile f
  (List.range pre.length).map (fun i => (s.take (i + 1), s.drop (i + 1)))

/-- A greedy `X*` piece: longest match first, down to the empty match. -/
def greedyStar (f : Char → Bool) (s : List Char) : MRes Unit :=
  let pre := s.takeWhile f
  (List.range (pre.length + 1)).map (fun i => ((), s.drop (pre.length - i)))

/-- A greedy `(...)?` group: try the group first, then skip it. -/
def moptG {α : Type} (p : List Char → MRes α) (s : List Char) :
    MRes (Option α) :=
  (p s).map (fun q => (some q.1, q.2)) ++ [(none, s)]

/-- The named captures of the three grammars. -/
structure StackGroups where
  method : Option (List Char)
  filename : List Char
  lineno : List Char
  colno : List Char

/-- `(?<filename>.+?):(?<lineno>\d+):(?<colno>\d+)` followed by `\)?` when
`allowParen` (the tail of `V8_FRAME_REGEX`; the other two grammars have no
closing paren). -/
def mloc (allowParen : Bool) (s : List Char) :
    MRes (List Char × List Char × List Char) :=
  mbind (lazyPlus isDotC s) (fun fn s1 =>
  mbind (mlit [':'] s1) (fun _ s2 =>
  mbind (greedyPlus isDigitC s2) (fun ln s3 =>
  mbind (mlit [':'] s3) (fun _ s4 =>
  mbind (greedyPlus isDigitC s4) (fun cn s5 =>
  if allowParen then
    mbind (moptG (mlit [')']) s5) (fun _ s6 => mret (fn, ln, cn) s6)
  else mret (fn, ln, cn) s5)))))

/-- First full match (empty remainder) in backtracking order. -/
def firstFull (alts : MRes StackGroups) : Option StackGroups :=
  ((alts.filter (fun q => q.2.isEmpty)).head?).map Prod.fst

/-- `V8_FRAME_REGEX`:
`^\s*at\s+(?:async\s+)?(?:(?<method>[\w.<>[\]$]+)\s+\()?(?<filename>.+?):(?<lineno>\d+):(?<colno>\d+)\)?$`. -/
def matchV8 (s : List Char) : Option StackGroups :=
  firstFull
    (mbind (greedyStar isSpc s) (fun _ s1 =>
     mbind (mlit ['a', 't'] s1) (fun _ s2 =>
     mbind (greedyPlus isSpc s2) (fun _ s3 =>
     mbind (moptG (fun t =>
         mbind (mlit ['a', 's', 'y', 'n', 'c'] t) (fun _ t1 =>
         mbind (greedyPlus isSpc t1) (fun _ t2 => mret () t2))) s3) (fun _ s4 =>
     mbind (moptG (fun t =>
         mbind (greedyPlus isMethodC t) (fun m t1 =>
         mbind (greedyPlus isSpc t1) (fun _ t2 =>
         mbind (mlit ['('] t2) (fun _ t3 => mret m t3)))) s4) (fun mo s5 =>
     mbind (mloc true s5) (fun loc s6 =>
       mret { method := mo, filename := loc.1, lineno := loc.2.1,
              colno := loc.2.2 } s6)))))))

/-- `V8_ANONYMOUS_REGEX`:
`^\s*at\s+(?<filename>.+?):(?<lineno>\d+):(?<colno>\d+)$`. -/
def matchAnon (s : List Char) : Option StackGroups :=
  firstFull
    (mbind (greedyStar isSpc s) (fun _ s1 =>
     mbind (mlit ['a', 't'] s1) (fun _ s2 =>
     mbind (greedyPlus isSpc s2) (fun _ s3 =>
     mbind (mloc false s3) (fun loc s4 =>
       mret { method := none, filename := loc.1, lineno := loc.2.1,
              colno := loc.2.2 } s4)))))

/-- `FIREFOX_REGEX`:
`^(?<method>[\w.<>[\]$]+)?@(?<filename>.+?):(?<lineno>\d+):(?<colno>\d+)$`. -/
def matchFirefox (s : List Char) : Option StackGroups :=
  firstFull
    (mbind (moptG (greedyPlus isMethodC) s) (fun mo s1 =>
     mbind (mlit ['@'] s1) (fun _ s2 =>
     mbind (mloc false s2) (fun loc s3 =>
       mret { method := mo, filename := loc.1, lineno := loc.2.1,
              colno := loc.2.2 } s3))))

/-- `StackFrame` from src/src/types.ts. -/
structure StackFrame where
  filename : Option String := none
  lineno : Option Nat := none
  colno : Option Nat := none
  method : Option String := none
  code : Option String := none
  args : Option (List String) := none
deriving DecidableEq

/-- `parseInt(digits, 10)` on an all-digit capture. -/
def digitsToNat (l : List Char) : Nat :=
  l.foldl (fun n c => n * 10 + (c.toNat - 48)) 0

/-- Builds the frame a successful grammar match produces.  The captures
`filename`/`lineno`/`colno` are nonempty by construction, so the source's
truthiness guard on them always passes; `groups.method || '(anonymous)'`
falls back on an absent (or empty) method capture. -/
def frameOfGroups (g : StackGroups) : StackFrame :=
  { filename := some (String.mk g.filename),
    lineno := some (digitsToNat g.lineno),
    colno := some (digitsToNat g.colno),
    method := some (match g.method with
      | some cs => if cs.isEmpty then "(anonymous)" else String.mk cs
      | none => "(anonymous)") }

/-- `line.trim()`. -/
def trimChars (l : List Char) : List Char :=
  ((l.dropWhile isSpc).reverse.dropWhile isSpc).reverse

/-- `parseStackLine(line)` from src/src/stack-parser.ts. -/
def parseStackLine (line : List Char) : Option StackFrame :=
  let trimmed := trimChars line
  -- if (!trimmed || trimmed.startsWith('Error:') || trimmed === 'Error')
  if trimmed.isEmpty || subAt ("Error:".data) trimmed ||
      trimmed == ("Error".data) then none
  else
    match matchV8 trimmed with
    | some g => some (frameOfGroups g)
    | none =>
      match matchAnon trimmed with
      | some g => some (frameOfGroups g)
      | none =>
        match matchFirefox trimmed with
        | some g => some (frameOfGroups g)
        | none =>
          -- unparseable line: degraded frame, raw trimmed text as method
          some { filename := some "(unparsed)", method := some (String.mk trimmed) }

/-- `text.split('\n')`. -/
def splitNl : List Char → List (List Char)
  | [] => [[]]
  | c :: cs =>
    match splitNl cs with
    | [] => [[c]]
    | hd :: tl => if c == '\n' then [] :: hd :: tl else (c :: hd) :: tl

/-- `parseStackFrames(error)` from src/src/stack-parser.ts. -/
def parseStackFrames (error : JsError) : List StackFrame :=
  let placeholder : StackFrame :=
    { filename := some "(no stack trace)",
      method := some (if error.name = "" then "Error" else error.name) }
  match error.stack with
  | none => [placeholder]
  | some st =>
    if st = "" then [placeholder]
    else
      let frames := (splitNl st.data).filterMap parseStackLine
      if frames.isEmpty then [placeholder] else frames.reverse

/-! ### Support lemmas for the claims -/

/-- The boolean sensitive-key test decides exactly "some configured field
name matches the key case-insensitively". -/
theorem isSensitive_iff (sf : List String) (k : String) :
    isSensitive sf k = true ↔ ∃ f ∈ sf, lowerStr f = lowerStr k := by
  simp [isSensitive, List.mem_map]

theorem isSensitive_false_iff (sf : List String) (k : String) :
    isSensitive sf k = false ↔ ¬∃ f ∈ sf, lowerStr f = lowerStr k := by
  rw [← isSensitive_iff, Bool.not_eq_true, Bool.eq_false_iff, ne_eq]

theorem stepF_prim {sf : List String} {k : String} {v : JsVal}
    (hsen : isSensitive sf k = false) (hp : isPrim v = true) :
    stepF sf (k, v) = (k, primS v) := by
  cases v <;> simp_all [stepF, isPrim, primS]

theorem le_foldr_max {x : Nat} {l : List Nat} (h : x ∈ l) :
    x ≤ l.foldr max 0 := by
  induction l with
  | nil => cases h
  | cons y t ih =>
    rcases List.mem_cons.mp h with rfl | ht
    · simp [List.foldr]
    · simp only [List.foldr]
      exact le_trans (ih ht) (le_max_right _ _)

theorem freshAddr_not_mem (h : Heap) : freshAddr h ∉ h.map Prod.fst := by
  intro hc
  have := le_foldr_max hc
  unfold freshAddr at this
  omega

theorem two_mem_length {x y : Nat} {l : List Nat} (hx : x ∈ l) (hy : y ∈ l)
    (hne : x ≠ y) : 2 ≤ l.length := by
  induction l with
  | nil => cases hx
  | cons z t ih =>
    rcases List.mem_cons.mp hx with rfl | hxt
    · rcases List.mem_cons.mp hy with rfl | hyt
      · exact absurd rfl hne
      · have : 1 ≤ t.length := List.length_pos.mpr (List.ne_nil_of_mem hyt)
        simp only [List.length_cons]
        omega
    · rcases List.mem_cons.mp hy with rfl | hyt
      · have : 1 ≤ t.length := List.length_pos.mpr (List.ne_nil_of_mem hxt)
        simp only [List.length_cons]
        omega
      · have := ih hxt hyt
        simp only [List.length_cons]
        omega

theorem mRem_top (h : Heap) : mRem h [] < (heapDom h).length + 1 := by
  unfold mRem
  have hle := List.length_filter_le (fun x => ! List.contains [] x) (heapDom h)
  omega

/-- A top-level scrub call always goes through the field loop (the root is
not in the fresh visited set) and yields an object. -/
theorem scrubObject_fields (h : Heap) (sf : List String) (a : Nat) :
    ∃ out vis,
      scrubFldsGo (fun vis b => scrubObjF (heapDom h).length h sf vis b) sf
        (lookupObj h a) [a] = some (out, vis) ∧
      scrubObject h sf a = some (SVal.obj out) := by
  have htot := scrub_total_obj ((heapDom h).length + 1) h sf [] a (mRem_top h)
  rw [scrubObjF] at htot
  rw [if_neg (by simp)] at htot
  cases hgo : scrubFldsGo (fun vis b => scrubObjF (heapDom h).length h sf vis b)
      sf (lookupObj h a) ([a] : List Nat) with
  | none => rw [hgo] at htot; simp at htot
  | some pr =>
    obtain ⟨out, vis⟩ := pr
    refine ⟨out, vis, ?_, ?_⟩
    · rfl
    · unfold scrubObject
      rw [scrubObjF, if_neg (by simp), hgo]
      rfl

/-! ## The claims -/

/-- The error of claim C4: stack text
`"Error: msg\n  at foo (a.js:1:2)\n  at b.js:3:4"`. -/
def err4 : JsError :=
  { name := "Error", message := "msg",
    stack := some "Error: msg\n  at foo (a.js:1:2)\n  at b.js:3:4" }

/-- C4: on the two-line engine-style trace
`"Error: msg\n  at foo (a.js:1:2)\n  at b.js:3:4"`, `parseStackFrames`
returns a two-frame sequence (the summary line is dropped, the collected
frames are reversed) whose last element has method `"foo"`, filename
`"a.js"`, line 1 and column 2. -/
theorem c4_two_line_trace :
    parseStackFrames err4 =
      [{ filename := some "b.js", lineno := some 3, colno := some 4,
         method := some "(anonymous)" },
       { filename := some "a.js", lineno := some 1, colno := some 2,
         method := some "foo" }] ∧
    (parseStackFrames err4).length = 2 ∧
    (parseStackFrames err4).getLast? =
      some { filename := some "a.js", lineno := some 1, colno := some 2,
             method := some "foo" } := by decide

/-- The error of claim C5's counterexample: a `TypeError` whose stack text
starts with the summary line `"TypeError: msg"`. -/
def errTy : JsError :=
  { name := "TypeError", message := "msg",
    stack := some "TypeError: msg\n  at foo (a.js:1:2)" }

/-- C5 (counterexample): `parseStackLine` tests the literal prefix
`"Error:"` (and the literal `"Error"`), not the error's declared kind name,
so the summary line of a `TypeError` is NOT discarded: it contributes an
`"(unparsed)"` frame, contradicting the claim that a line starting with the
error's declared kind name (e.g. `"TypeError:"`) contributes no frame. -/
theorem c5_typeerror_summary_not_discarded :
    errTy.name = "TypeError" ∧
    parseStackFrames errTy =
      [{ filename := some "a.js", lineno := some 1, colno := some 2,
         method := some "foo" },
       { filename := some "(unparsed)", method := some "TypeError: msg" }] ∧
    (parseStackFrames errTy).length ≠ 1 := by decide

/-- C5 (amended): `parseStackFrames` discards every line that (after
trimming) starts with the literal `"Error:"`, equals the literal `"Error"`,
or is blank — independently of the error's declared kind name; such lines
contribute no frame.  A summary line of any other kind (e.g. `"TypeError:
msg"`) is not discarded and contributes a degraded `"(unparsed)"` frame. -/
theorem c5_summary_line_discard_amended :
    (∀ line : List Char, subAt ("Error:".data) (trimChars line) = true →
      parseStackLine line = none) ∧
    (∀ line : List Char, trimChars line = ("Error".data) →
      parseStackLine line = none) ∧
    (∀ line : List Char, trimChars line = [] → parseStackLine line = none) ∧
    parseStackFrames errTy =
      [{ filename := some "a.js", lineno := some 1, colno := some 2,
         method := some "foo" },
       { filename := some "(unparsed)", method := some "TypeError: msg" }] := by
  refine ⟨?_, ?_, ?_, by decide⟩
  · intro line h
    unfold parseStackLine
    simp [h]
  · intro line h
    unfold parseStackLine
    simp [h]
  · intro line h
    unfold parseStackLine
    simp [h]

/-- Witness for C5's amended theorem at concrete lines. -/
theorem c5_summary_line_discard_amended_witness :
    parseStackLine ("Error: boom".data) = none ∧
    parseStackLine ("   Error".data) = none ∧
    parseStackLine ("  ".data) = none :=
  ⟨c5_summary_line_discard_amended.1 _ (by decide),
   c5_summary_line_discard_amended.2.1 _ (by decide),
   c5_summary_line_discard_amended.2.2.1 _ (by decide)⟩

/-- C6: `send` never raises (it is a total function of the transport
outcome): on a transport failure it logs the failure and returns the
explicit no-result value (`null`); on success it returns the parsed
acknowledgement even when its error code is non-zero, in which case the
service-supplied message is logged, not thrown. -/
theorem c6_send_never_raises :
    ∀ (verbose : Bool) (p : RollbarPayload) (e : String) (r : RollbarResponse),
      (send verbose p (Except.error e)).1 = none ∧
      LogEntry.failedSend e ∈ (send verbose p (Except.error e)).2 ∧
      (send verbose p (Except.ok r)).1 = some r ∧
      (r.err ≠ 0 →
        LogEntry.errorResponse r.message ∈ (send verbose p (Except.ok r)).2) := by
  intro verbose p e r
  refine ⟨rfl, ?_, rfl, ?_⟩
  · cases verbose <;> simp [send]
  · intro h
    cases verbose <;> simp [send, h]

/-- A concrete payload for the witnesses. -/
def pW : RollbarPayload :=
  { access_token := "t", environment := "production", level := "error",
    timestamp := 0, platform := "cloudflare-workers",
    language := "javascript", notifierName := NOTIFIER_NAME,
    notifierVersion := NOTIFIER_VERSION, code_version := none,
    server_host := none, custom := none, person := none, request := none,
    fingerprint := none, title := none, uuid := none }

/-- Witness for C6 at a concrete transport failure and a concrete rejected
acknowledgement. -/
theorem c6_send_never_raises_witness :
    (send false pW (Except.error "network down")).1 = none ∧
    (send false pW (Except.ok { err := 1, message := some "bad token" })).1 =
      some { err := 1, message := some "bad token" } ∧
    LogEntry.errorResponse (some "bad token") ∈
      (send false pW (Except.ok { err := 1, message := some "bad token" })).2 := by
  have h := c6_send_never_raises false pW "network down"
    { err := 1, message := some "bad token" }
  exact ⟨h.1, h.2.2.1, h.2.2.2 (by decide)⟩

/-- C7: constructing a client with an empty access token raises
synchronously (no client value exists), and any non-empty access token
constructs successfully. -/
theorem c7_constructor_token_guard :
    ∀ config : RollbarConfig,
      (config.accessToken = "" →
        mkRollbar config = Except.error "Rollbar accessToken is required") ∧
      (config.accessToken ≠ "" → ∃ r, mkRollbar config = Except.ok r) := by
  intro config
  constructor
  · intro h
    unfold mkRollbar
    rw [if_pos h]
  · intro h
    exact ⟨_, by unfold mkRollbar; rw [if_neg h]⟩

/-- Witness for C7: the empty token fails, `"tok"` succeeds. -/
theorem c7_constructor_token_guard_witness :
    mkRollbar { accessToken := "" } =
      Except.error "Rollbar accessToken is required" ∧
    ∃ r, mkRollbar { accessToken := "tok" } = Except.ok r :=
  ⟨(c7_constructor_token_guard { accessToken := "" }).1 rfl,
   (c7_constructor_token_guard { accessToken := "tok" }).2 (by decide)⟩

/-- The wrapper options of C8's counterexample: `rethrow: true`. -/
def rethrowOpts : WrapperOptions := { rethrow := true }

/-- C8 (counterexample): with `rethrow` enabled, a handler failing with a
thrown non-`Error` value (here the string `"boom"`) does not propagate that
original thrown value: `wrap` converts it with `new Error(String(err))` and
rethrows the wrapped form. -/
theorem c8_nonerror_rethrow_wrapped :
    wrapRun rethrowOpts (HandlerOutcome.threw (Thrown.nonError "boom")) =
      (true, HandlerOutcome.threw (Thrown.errObj
        { name := "Error", message := "boom", stack := none })) ∧
    (wrapRun rethrowOpts (HandlerOutcome.threw (Thrown.nonError "boom"))).2 ≠
      HandlerOutcome.threw (Thrown.nonError "boom") := by decide

/-- C8 (amended): with `rethrow` enabled, after the report has been issued,
a thrown `Error` propagates out of the wrapped handler unchanged (the very
same error, not a copy or a wrapped form); a thrown non-`Error` value
propagates as the `Error` built from its string form. -/
theorem c8_rethrow_propagates_original_error :
    ∀ (options : WrapperOptions) (e : JsError) (s : String),
      options.rethrow = true →
      wrapRun options (HandlerOutcome.threw (Thrown.errObj e)) =
        (true, HandlerOutcome.threw (Thrown.errObj e)) ∧
      wrapRun options (HandlerOutcome.threw (Thrown.nonError s)) =
        (true, HandlerOutcome.threw (Thrown.errObj
          { name := "Error", message := s, stack := none })) := by
  intro options e s hro
  constructor <;> simp [wrapRun, toJsError, hro]

/-- Witness for C8's amended theorem at a concrete error and options. -/
theorem c8_rethrow_propagates_original_error_witness :
    wrapRun rethrowOpts (HandlerOutcome.threw (Thrown.errObj
        { name := "TypeError", message := "bad", stack := none })) =
      (true, HandlerOutcome.threw (Thrown.errObj
        { name := "TypeError", message := "bad", stack := none })) :=
  (c8_rethrow_propagates_original_error rethrowOpts
    { name := "TypeError", message := "bad", stack := none } "x" rfl).1

/-- "Header name `k` case-insensitively contains, as a contiguous substring,
one of the fixed sensitive-header markers or one of the caller's extra scrub
fields." -/
def headerMatchP (extra : List String) (k : String) : Prop :=
  ∃ f, (f ∈ DEFAULT_SCRUB_HEADERS ∨ f ∈ extra) ∧
    ∃ u w, (lowerStr k).data = u ++ (lowerStr f).data ++ w

theorem headerMatchP_iff_any (extra : List String) (k : String) :
    headerMatchP extra k ↔
      (DEFAULT_SCRUB_HEADERS ++ extra).any
        (fun f => strIncludes (lowerStr k) (lowerStr f)) = true := by
  rw [List.any_eq_true]
  constructor
  · rintro ⟨f, hf, hs⟩
    exact ⟨f, by simpa using hf, (strIncludes_iff _ _).mpr hs⟩
  · rintro ⟨f, hf, hs⟩
    exact ⟨f, by simpa using hf, (strIncludes_iff _ _).mp hs⟩

/-- C3: `scrubHeaders` masks exactly those headers whose name
case-insensitively contains one of the five fixed sensitive-header
substrings or one of the caller's extra scrub fields; every other header
passes through verbatim, and the fixed-header rule applies for every
configuration `extra`. -/
theorem c3_scrubHeaders_mask_iff :
    ∀ (headers : List (String × String)) (extra : List String),
      (scrubHeaders headers extra).length = headers.length ∧
      ∀ i (hi : i < headers.length)
          (ho : i < (scrubHeaders headers extra).length),
        ((scrubHeaders headers extra).get ⟨i, ho⟩).1 =
          (headers.get ⟨i, hi⟩).1 ∧
        (headerMatchP extra (headers.get ⟨i, hi⟩).1 →
          (scrubHeaders headers extra).get ⟨i, ho⟩ =
            ((headers.get ⟨i, hi⟩).1, scrubbedLit)) ∧
        (¬ headerMatchP extra (headers.get ⟨i, hi⟩).1 →
          (scrubHeaders headers extra).get ⟨i, ho⟩ = headers.get ⟨i, hi⟩) ∧
        ((∃ f ∈ DEFAULT_SCRUB_HEADERS, ∃ u w,
            (lowerStr (headers.get ⟨i, hi⟩).1).data = u ++ (lowerStr f).data ++ w) →
          (scrubHeaders headers extra).get ⟨i, ho⟩ =
            ((headers.get ⟨i, hi⟩).1, scrubbedLit)) := by
  intro headers extra
  refine ⟨by simp [scrubHeaders], ?_⟩
  intro i hi ho
  have hg : (scrubHeaders headers extra).get ⟨i, ho⟩ =
      (if (DEFAULT_SCRUB_HEADERS ++ extra).any
          (fun f => strIncludes (lowerStr (headers.get ⟨i, hi⟩).1) (lowerStr f)) then
        ((headers.get ⟨i, hi⟩).1, scrubbedLit)
      else headers.get ⟨i, hi⟩) := by
    simp [scrubHeaders, List.getElem_map]
  by_cases hcond : headerMatchP extra (headers.get ⟨i, hi⟩).1
  · have hb := (headerMatchP_iff_any extra _).mp hcond
    rw [hg, if_pos hb]
    exact ⟨rfl, fun _ => rfl, fun hn => absurd hcond hn,
      fun _ => rfl⟩
  · have hb : ((DEFAULT_SCRUB_HEADERS ++ extra).any
        (fun f => strIncludes (lowerStr (headers.get ⟨i, hi⟩).1) (lowerStr f))) =
        false := by
      rw [Bool.eq_false_iff, ne_eq]
      intro hx
      exact hcond ((headerMatchP_iff_any extra _).mpr hx)
    rw [hg, hb]
    refine ⟨by simp, fun hp => absurd hp hcond, fun _ => by simp, ?_⟩
    intro hfixed
    obtain ⟨f, hf, hs⟩ := hfixed
    exact absurd ⟨f, Or.inl hf, hs⟩ hcond

/-- Witness for C3: an `Authorization` header is masked for the empty extra
configuration, a custom header passes through verbatim. -/
theorem c3_scrubHeaders_mask_iff_witness :
    (scrubHeaders [("Authorization", "Bearer tok"), ("X-Custom", "v")] []).get
        ⟨0, by decide⟩ = ("Authorization", scrubbedLit) ∧
    (scrubHeaders [("Authorization", "Bearer tok"), ("X-Custom", "v")] []).get
        ⟨1, by decide⟩ = ("X-Custom", "v") := by
  have h := (c3_scrubHeaders_mask_iff
    [("Authorization", "Bearer tok"), ("X-Custom", "v")] []).2
  constructor
  · exact (h 0 (by decide) (by decide)).2.1
      ⟨"authorization", Or.inl (by decide), [], [], by decide⟩
  · refine (h 1 (by decide) (by decide)).2.2.1 ?_
    intro hp
    have hb := (headerMatchP_iff_any [] "X-Custom").mp hp
    exact absurd hb (by decide)

/-- C9: in `scrubObject`, a key that case-insensitively matches a sensitive
field is replaced by the scrubbed marker even when its value is a nested
container; that container is never descended into and never added to the
visited set (the output and the final visited set `[a]` are determined by
the root's field list alone, for EVERY heap agreeing on the root), so data
reachable only through sensitive keys — cycles included — is dropped
wholesale and no container-valued field ever produces the circular-reference
marker. -/
theorem c9_sensitive_container_dropped :
    ∀ (h : Heap) (sf : List String) (a : Nat) (fA : List (String × JsVal))
      (fuel : Nat),
      List.lookup a h = some fA →
      (∀ kv ∈ fA, isSensitive sf kv.1 = true ∨ isPrim kv.2 = true) →
      scrubObjF (fuel + 1) h sf [] a =
        some (SVal.obj (fA.map (stepF sf)), [a]) ∧
      (∀ k b, (k, JsVal.ref b) ∈ fA →
        (k, SVal.str scrubbedLit) ∈ fA.map (stepF sf)) ∧
      (∀ kv ∈ fA, isPrim kv.2 = false →
        stepF sf kv = (kv.1, SVal.str scrubbedLit)) := by
  intro h sf a fA fuel hA hfields
  have hsens_of_ref : ∀ kv ∈ fA, isPrim kv.2 = false →
      isSensitive sf kv.1 = true := by
    intro kv hkv hp
    rcases hfields kv hkv with hs | hp2
    · exact hs
    · rw [hp] at hp2; cases hp2
  have hnd : ∀ kv ∈ fA, isSensitive sf kv.1 = true ∨
      (∀ c, kv.2 = JsVal.ref c → c = a) := by
    intro kv hkv
    rcases hfields kv hkv with hs | hp
    · exact Or.inl hs
    · refine Or.inr fun c hc => ?_
      rw [hc] at hp
      simp [isPrim] at hp
  refine ⟨objF_noDescend fuel hA hnd, ?_, ?_⟩
  · intro k b hm
    have hs : isSensitive sf k = true :=
      hsens_of_ref (k, JsVal.ref b) hm (by simp [isPrim])
    have hst : stepF sf (k, JsVal.ref b) = (k, SVal.str scrubbedLit) := by
      simp [stepF, hs]
    exact hst ▸ List.mem_map_of_mem _ hm
  · intro kv hkv hp
    have hs := hsens_of_ref kv hkv hp
    simp [stepF, hs]

/-- C9 witness heap: a `password` key holding a self-looping container. -/
def hC9 : Heap :=
  [(1, [("password", JsVal.ref 2), ("ok", JsVal.num 5)]),
   (2, [("loop", JsVal.ref 2)])]

/-- Witness for C9 at a concrete heap: the cyclic container behind
`password` is dropped wholesale; only the root ends up visited. -/
theorem c9_sensitive_container_dropped_witness :
    scrubObjF 1 hC9 DEFAULT_SCRUB_FIELDS [] 1 =
      some (SVal.obj [("password", SVal.str scrubbedLit),
        ("ok", SVal.num 5)], [1]) ∧
    ("password", SVal.str scrubbedLit) ∈
      ([("password", JsVal.ref 2), ("ok", JsVal.num 5)].map
        (stepF DEFAULT_SCRUB_FIELDS)) := by
  have h := c9_sensitive_container_dropped hC9 DEFAULT_SCRUB_FIELDS 1
    [("password", JsVal.ref 2), ("ok", JsVal.num 5)] 0 rfl (by decide)
  exact ⟨h.1, h.2.1 "password" 2 (by decide)⟩

/-- C2: for every mapping, every key case-insensitively matching a
configured sensitive field has its value replaced by the scrubbed marker;
every other key keeps its name and, when its value is not a container,
passes through unmodified.  The scrub fields of a constructed client are the
built-in list extended by — never replaced with — the custom fields. -/
theorem c2_sensitive_fields_scrubbed :
    (∀ (h : Heap) (sf : List String) (a : Nat) (fA : List (String × JsVal)),
      List.lookup a h = some fA →
      ∃ out, scrubObject h sf a = some (SVal.obj out) ∧
        out.length = fA.length ∧
        ∀ i (hi : i < fA.length) (ho : i < out.length),
          (out.get ⟨i, ho⟩).1 = (fA.get ⟨i, hi⟩).1 ∧
          ((∃ f ∈ sf, lowerStr f = lowerStr (fA.get ⟨i, hi⟩).1) →
            (out.get ⟨i, ho⟩).2 = SVal.str scrubbedLit) ∧
          ((¬∃ f ∈ sf, lowerStr f = lowerStr (fA.get ⟨i, hi⟩).1) →
            isPrim (fA.get ⟨i, hi⟩).2 = true →
            (out.get ⟨i, ho⟩).2 = primS (fA.get ⟨i, hi⟩).2)) ∧
    (∀ (cfg : RollbarConfig) (r : RollbarClient),
      mkRollbar cfg = Except.ok r →
      (∀ f ∈ DEFAULT_SCRUB_FIELDS, f ∈ r.scrubFields) ∧
      (∀ f ∈ cfg.scrubFields.getD [], f ∈ r.scrubFields)) := by
  constructor
  · intro h sf a fA hA
    obtain ⟨out, vis, hgo, hobj⟩ := scrubObject_fields h sf a
    have hl : lookupObj h a = fA := by unfold lookupObj; rw [hA]; rfl
    rw [hl] at hgo
    obtain ⟨hlen, hpt⟩ := fldsGo_shape fA [a] out vis hgo
    refine ⟨out, hobj, hlen, ?_⟩
    intro i hi ho
    obtain ⟨hk, hsen, hprim⟩ := hpt i hi ho
    refine ⟨hk, ?_, ?_⟩
    · intro hex
      exact hsen ((isSensitive_iff sf _).mpr hex)
    · intro hnex hp
      exact hprim ((isSensitive_false_iff sf _).mpr hnex) hp
  · intro cfg r hok
    unfold mkRollbar at hok
    by_cases he : cfg.accessToken = ""
    · rw [if_pos he] at hok; cases hok
    · rw [if_neg he] at hok
      injection hok with h2
      rw [← h2]
      constructor
      · intro f hf
        simp [hf]
      · intro f hf
        simp [hf]

/-- C2 witness heap: one sensitive key, one differently-cased sensitive
key, one benign key. -/
def hC2w : Heap :=
  [(1, [("password", JsVal.str "hunter2"), ("Token", JsVal.str "t"),
    ("greeting", JsVal.str "hi")])]

/-- The concrete configuration of C2's witness. -/
def cfgW : RollbarConfig := { accessToken := "tok", scrubFields := some ["person"] }

/-- The client `mkRollbar cfgW` constructs. -/
def rW : RollbarClient :=
  { config := { cfgW with environment := some "production" },
    scrubFields := DEFAULT_SCRUB_FIELDS ++ ["person"] }

/-- Witness for C2 at a concrete mapping and a concrete configuration:
builtin and custom scrub fields are both present in the constructed
client. -/
theorem c2_sensitive_fields_scrubbed_witness :
    (∃ out, scrubObject hC2w DEFAULT_SCRUB_FIELDS 1 = some (SVal.obj out) ∧
      out.length = 3) ∧
    "password" ∈ rW.scrubFields ∧ "person" ∈ rW.scrubFields := by
  obtain ⟨out, hobj, hlen, _⟩ := c2_sensitive_fields_scrubbed.1 hC2w
    DEFAULT_SCRUB_FIELDS 1
    [("password", JsVal.str "hunter2"), ("Token", JsVal.str "t"),
     ("greeting", JsVal.str "hi")] rfl
  have hadd := c2_sensitive_fields_scrubbed.2 cfgW rW rfl
  exact ⟨⟨out, hobj, hlen⟩, hadd.1 "password" (by decide),
    hadd.2 "person" (by decide)⟩

/-- C1 counterexample heap: `obj = {x: child, y: child, self: obj}` with
`child = {n: 1}` — the mapping contains a self-reference through `self`. -/
def hC1 : Heap :=
  [(1, [("x", JsVal.ref 2), ("y", JsVal.ref 2), ("self", JsVal.ref 1)]),
   (2, [("n", JsVal.num 1)])]

/-- C1 (counterexample): the visited set is shared across sibling subtrees,
so on a mapping with a self-reference whose siblings `x` and `y` share one
(acyclic) child object, the second sibling `y` is replaced by the
circular-reference marker instead of being preserved unchanged — refuting
"non-cyclic sibling data is preserved unchanged" as universally stated. -/
theorem c1_shared_sibling_not_preserved :
    scrubObject hC1 [] 1 =
      some (SVal.obj [("x", SVal.obj [("n", SVal.num 1)]),
        ("y", SVal.str circularLit), ("self", SVal.str circularLit)]) ∧
    SVal.str circularLit ≠ SVal.obj [("n", SVal.num 1)] := by
  refine ⟨rfl, ?_⟩
  intro hcon
  cases hcon

/-- C1 (amended): `scrubObject` terminates on every finite heap (cycles
included); a directly self-referential edge is replaced by the circular
marker while primitive, non-sensitive, unshared siblings are preserved
unchanged; a child pointing back to its ancestor has that back-edge replaced
by the marker, the rest preserved.  (A container reached a second time is
also replaced by the marker even when no cycle exists — see the
counterexample — so preservation is stated for sibling data not sharing
containers with the rest of the structure.) -/
theorem c1_cycle_scrubbing_amended :
    (∀ (h : Heap) (sf : List String) (a : Nat), (scrubObject h sf a).isSome) ∧
    (∀ (h : Heap) (sf : List String) (a : Nat) (u w : List (String × JsVal))
        (k : String),
      List.lookup a h = some (u ++ (k, JsVal.ref a) :: w) →
      isSensitive sf k = false →
      (∀ kv ∈ u, isSensitive sf kv.1 = false ∧ isPrim kv.2 = true) →
      (∀ kv ∈ w, isSensitive sf kv.1 = false ∧ isPrim kv.2 = true) →
      scrubObject h sf a = some (SVal.obj
        (u.map (fun kv => (kv.1, primS kv.2)) ++
         (k, SVal.str circularLit) ::
         w.map (fun kv => (kv.1, primS kv.2))))) ∧
    (∀ (h : Heap) (sf : List String) (a b : Nat)
        (u w ub wb : List (String × JsVal)) (kb kc : String),
      List.lookup a h = some (u ++ (kb, JsVal.ref b) :: w) →
      List.lookup b h = some (ub ++ (kc, JsVal.ref a) :: wb) →
      b ≠ a →
      isSensitive sf kb = false →
      isSensitive sf kc = false →
      (∀ kv ∈ u, isSensitive sf kv.1 = false ∧ isPrim kv.2 = true) →
      (∀ kv ∈ w, isSensitive sf kv.1 = false ∧ isPrim kv.2 = true) →
      (∀ kv ∈ ub, isSensitive sf kv.1 = false ∧ isPrim kv.2 = true) →
      (∀ kv ∈ wb, isSensitive sf kv.1 = false ∧ isPrim kv.2 = true) →
      scrubObject h sf a = some (SVal.obj
        (u.map (fun kv => (kv.1, primS kv.2)) ++
         (kb, SVal.obj (ub.map (fun kv => (kv.1, primS kv.2)) ++
            (kc, SVal.str circularLit) ::
            wb.map (fun kv => (kv.1, primS kv.2)))) ::
         w.map (fun kv => (kv.1, primS kv.2))))) := by
  refine ⟨scrubObject_total, ?_, ?_⟩
  · intro h sf a u w k hA hk hu hw
    have hbenign : ∀ kv ∈ u ++ (k, JsVal.ref a) :: w,
        isSensitive sf kv.1 = true ∨ (∀ c, kv.2 = JsVal.ref c → c = a) := by
      intro kv hkv
      rcases List.mem_append.mp hkv with hku | hkm
      · refine Or.inr fun c hc => ?_
        have := (hu kv hku).2
        rw [hc] at this
        simp [isPrim] at this
      · rcases List.mem_cons.mp hkm with rfl | hkw
        · refine Or.inr fun c hc => ?_
          simp at hc
          exact hc.symm
        · refine Or.inr fun c hc => ?_
          have := (hw kv hkw).2
          rw [hc] at this
          simp [isPrim] at this
    have hmain := objF_noDescend (heapDom h).length hA hbenign
    unfold scrubObject
    rw [hmain]
    have hmap : (u ++ (k, JsVal.ref a) :: w).map (stepF sf) =
        u.map (fun kv => (kv.1, primS kv.2)) ++
        (k, SVal.str circularLit) ::
        w.map (fun kv => (kv.1, primS kv.2)) := by
      rw [List.map_append, List.map_cons]
      rw [List.map_congr_left (fun kv hkv => stepF_prim (hu kv hkv).1 (hu kv hkv).2)]
      rw [List.map_congr_left (fun kv hkv => stepF_prim (hw kv hkv).1 (hw kv hkv).2)]
      have : stepF sf (k, JsVal.ref a) = (k, SVal.str circularLit) := by
        simp [stepF, hk]
      rw [this]
    rw [hmap]
    rfl
  · intro h sf a b u w ub wb kb kc hA hB hba hkb hkc hu hw hub hwb
    have hadom : a ∈ heapDom h := by
      have := mem_of_lookup_some hA
      simpa [heapDom, List.mem_dedup] using this
    have hbdom : b ∈ heapDom h := by
      have := mem_of_lookup_some hB
      simpa [heapDom, List.mem_dedup] using this
    have h2 : 2 ≤ (heapDom h).length := two_mem_length hbdom hadom hba
    have hu2 : ∀ kv ∈ u, isSensitive sf kv.1 = true ∨
        (∀ c, kv.2 = JsVal.ref c → c = a) := by
      intro kv hkv
      refine Or.inr fun c hc => ?_
      have := (hu kv hkv).2
      rw [hc] at this
      simp [isPrim] at this
    have hw2 : ∀ kv ∈ w, isSensitive sf kv.1 = true ∨
        (∀ c, kv.2 = JsVal.ref c → c = a ∨ c = b) := by
      intro kv hkv
      refine Or.inr fun c hc => ?_
      have := (hw kv hkv).2
      rw [hc] at this
      simp [isPrim] at this
    have hfB2 : ∀ kv ∈ ub ++ (kc, JsVal.ref a) :: wb,
        isSensitive sf kv.1 = true ∨
        (∀ c, kv.2 = JsVal.ref c → c = a ∨ c = b) := by
      intro kv hkv
      rcases List.mem_append.mp hkv with hku | hkm
      · refine Or.inr fun c hc => ?_
        have := (hub kv hku).2
        rw [hc] at this
        simp [isPrim] at this
      · rcases List.mem_cons.mp hkm with rfl | hkw
        · refine Or.inr fun c hc => ?_
          simp at hc
          exact Or.inl hc.symm
        · refine Or.inr fun c hc => ?_
          have := (hwb kv hkw).2
          rw [hc] at this
          simp [isPrim] at this
    have hmain := objF_twoLevel ((heapDom h).length - 1)
      hA hB hba hkb hu2 hfB2 hw2
    have hfuel : (heapDom h).length - 1 + 2 = (heapDom h).length + 1 := by omega
    rw [hfuel] at hmain
    unfold scrubObject
    rw [hmain]
    have hmapu : u.map (stepF sf) = u.map (fun kv => (kv.1, primS kv.2)) :=
      List.map_congr_left (fun kv hkv => stepF_prim (hu kv hkv).1 (hu kv hkv).2)
    have hmapw : w.map (stepF sf) = w.map (fun kv => (kv.1, primS kv.2)) :=
      List.map_congr_left (fun kv hkv => stepF_prim (hw kv hkv).1 (hw kv hkv).2)
    have hmapB : (ub ++ (kc, JsVal.ref a) :: wb).map (stepF sf) =
        ub.map (fun kv => (kv.1, primS kv.2)) ++
        (kc, SVal.str circularLit) ::
        wb.map (fun kv => (kv.1, primS kv.2)) := by
      rw [List.map_append, List.map_cons]
      rw [List.map_congr_left
        (fun kv hkv => stepF_prim (hub kv hkv).1 (hub kv hkv).2)]
      rw [List.map_congr_left
        (fun kv hkv => stepF_prim (hwb kv hkv).1 (hwb kv hkv).2)]
      have hkcs : stepF sf (kc, JsVal.ref a) = (kc, SVal.str circularLit) := by
        simp [stepF, hkc]
      rw [hkcs]
    rw [hmapu, hmapw, hmapB]
    rfl

/-- C1 witness heap: a directly self-referential mapping with a primitive
sibling. -/
def hC1w2 : Heap := [(1, [("sib", JsVal.num 7), ("self", JsVal.ref 1)])]

/-- C1 witness heap: a child pointing back to its ancestor. -/
def hC1w3 : Heap :=
  [(1, [("child", JsVal.ref 2)]),
   (2, [("parent", JsVal.ref 1), ("note", JsVal.str "ok")])]

/-- Witness for C1's amended theorem: termination on the cyclic
counterexample heap, self-cycle replacement with sibling preservation, and
ancestor-cycle replacement. -/
theorem c1_cycle_scrubbing_amended_witness :
    (scrubObject hC1 [] 1).isSome ∧
    scrubObject hC1w2 [] 1 = some (SVal.obj
      [("sib", SVal.num 7), ("self", SVal.str circularLit)]) ∧
    scrubObject hC1w3 [] 1 = some (SVal.obj
      [("child", SVal.obj [("parent", SVal.str circularLit),
        ("note", SVal.str "ok")])]) := by
  refine ⟨c1_cycle_scrubbing_amended.1 hC1 [] 1, ?_, ?_⟩
  · have h := c1_cycle_scrubbing_amended.2.1 hC1w2 [] 1
      [("sib", JsVal.num 7)] [] "self" rfl (by decide) (by decide) (by decide)
    simpa using h
  · have h := c1_cycle_scrubbing_amended.2.2 hC1w3 [] 1 2
      [] [] [] [("note", JsVal.str "ok")] "child" "parent" rfl rfl
      (by decide) (by decide) (by decide) (by decide) (by decide)
      (by decide) (by decide)
    simpa using h

theorem mkRollbar_ok_of_ne {cfg : RollbarConfig} (h : cfg.accessToken ≠ "") :
    mkRollbar cfg = Except.ok
      { config :=
          { cfg with environment := some (cfg.environment.getD "production") },
        scrubFields := DEFAULT_SCRUB_FIELDS ++ cfg.scrubFields.getD [] } := by
  unfold mkRollbar
  rw [if_neg h]

theorem mkRollbar_ok_inv {cfg : RollbarConfig} {r : RollbarClient}
    (hok : mkRollbar cfg = Except.ok r) :
    cfg.accessToken ≠ "" ∧
    r.config =
      { cfg with environment := some (cfg.environment.getD "production") } ∧
    r.scrubFields = DEFAULT_SCRUB_FIELDS ++ cfg.scrubFields.getD [] := by
  unfold mkRollbar at hok
  by_cases he : cfg.accessToken = ""
  · rw [if_pos he] at hok; cases hok
  · rw [if_neg he] at hok
    injection hok with h2
    rw [← h2]
    exact ⟨he, rfl, rfl⟩

/-- C10: `withPerson` derives a new client without touching the parent's
configuration or any object of the existing heap; the person is merged into
the derived client's config payload, so every payload built through the
derived client carries it — after scrubbing — under `data.custom.person`,
while the top-level `data.person` block is absent unless the per-call
context supplies a person. -/
theorem c10_withPerson_person_under_custom :
    ∀ (h : Heap) (cfg : RollbarConfig) (r : RollbarClient) (a pa : Nat)
      (base pFlds : List (String × JsVal)) (level : String) (now : Nat),
      mkRollbar cfg = Except.ok r →
      r.config.payload = some a →
      List.lookup a h = some base →
      List.lookup pa h = some pFlds →
      (∀ kv ∈ base, kv.1 ≠ "person" ∧
        isSensitive r.scrubFields kv.1 = false ∧ isPrim kv.2 = true) →
      (∀ kv ∈ pFlds, isSensitive r.scrubFields kv.1 = false ∧
        isPrim kv.2 = true) →
      isSensitive r.scrubFields "person" = false →
      ∃ r2, (withPerson r h pa).2 = Except.ok r2 ∧
        (∀ x ∈ h.map Prod.fst,
          List.lookup x (withPerson r h pa).1 = List.lookup x h) ∧
        r2.config.payload = some (freshAddr h) ∧
        r2.scrubFields = r.scrubFields ∧
        List.lookup (freshAddr h) (withPerson r h pa).1 =
          some (base ++ [("person", JsVal.ref pa)]) ∧
        (∀ ctx,
          (buildPayload (withPerson r h pa).1 r2 level now ctx).person =
            ctx.bind (fun c => c.person)) ∧
        (buildPayload (withPerson r h pa).1 r2 level now none).custom =
          some (base.map (fun kv => (kv.1, primS kv.2)) ++
            [("person",
              SVal.obj (pFlds.map (fun kv => (kv.1, primS kv.2))))]) ∧
        List.lookup "person"
            (((buildPayload (withPerson r h pa).1 r2 level now none).custom).getD [])
          = some (SVal.obj (pFlds.map (fun kv => (kv.1, primS kv.2)))) := by
  intro h cfg r a pa base pFlds level now hok hpay hba hpa hbase hperF hpers
  obtain ⟨hacc0, hrc, hrsf⟩ := mkRollbar_ok_inv hok
  have hacc : r.config.accessToken ≠ "" := by rw [hrc]; exact hacc0
  have hna : freshAddr h ∉ h.map Prod.fst := freshAddr_not_mem h
  have hpamem : pa ∈ h.map Prod.fst := mem_of_lookup_some hpa
  have hpane : pa ≠ freshAddr h := fun hx => hna (hx ▸ hpamem)
  -- the fresh payload object: base fields plus the person reference
  have hanyF : (base.any (fun kv => kv.1 == "person")) = false := by
    rw [Bool.eq_false_iff, ne_eq, List.any_eq_true]
    rintro ⟨kv, hkv, hbq⟩
    exact (hbase kv hkv).1 (by simpa using hbq)
  have hlk : lookupObj h a = base := by unfold lookupObj; rw [hba]; rfl
  have hwp : withPerson r h pa =
      (h ++ [(freshAddr h, base ++ [("person", JsVal.ref pa)])],
       mkRollbar { r.config with payload := some (freshAddr h) }) := by
    unfold withPerson
    rw [hpay]
    dsimp only
    rw [hlk]
    unfold setKeyG
    rw [hanyF]
    rfl
  have hsf4 : DEFAULT_SCRUB_FIELDS ++ r.config.scrubFields.getD [] =
      r.scrubFields := by
    rw [hrsf, hrc]
  have hok2 : mkRollbar { r.config with payload := some (freshAddr h) } =
      Except.ok
        { config :=
            { r.config with
              payload := some (freshAddr h),
              environment := some (r.config.environment.getD "production") },
          scrubFields := DEFAULT_SCRUB_FIELDS ++
            r.config.scrubFields.getD [] } := by
    unfold mkRollbar
    rw [if_neg (show ¬(({ r.config with payload := some (freshAddr h) } :
      RollbarConfig).accessToken = "") from hacc)]
  -- the scrub of the derived config payload: base fields preserved, the
  -- person object copied one level down
  have hnadom : freshAddr h ∈
      heapDom (h ++ [(freshAddr h, base ++ [("person", JsVal.ref pa)])]) := by
    simp [heapDom, List.mem_dedup]
  have hA2 : List.lookup (freshAddr h)
      (h ++ [(freshAddr h, base ++ [("person", JsVal.ref pa)])]) =
      some (base ++ [("person", JsVal.ref pa)]) := by
    rw [lookup_append_right _ _ _ hna]
    simp [List.lookup]
  have hB2 : List.lookup pa
      (h ++ [(freshAddr h, base ++ [("person", JsVal.ref pa)])]) =
      some pFlds := by
    rw [lookup_append_left _ _ _ hpamem]
    exact hpa
  have hu2 : ∀ kv ∈ base, isSensitive r.scrubFields kv.1 = true ∨
      (∀ c, kv.2 = JsVal.ref c → c = freshAddr h) := by
    intro kv hkv
    refine Or.inr fun c hc => ?_
    have := (hbase kv hkv).2.2
    rw [hc] at this
    simp [isPrim] at this
  have hfB2 : ∀ kv ∈ pFlds, isSensitive r.scrubFields kv.1 = true ∨
      (∀ c, kv.2 = JsVal.ref c → c = freshAddr h ∨ c = pa) := by
    intro kv hkv
    refine Or.inr fun c hc => ?_
    have := (hperF kv hkv).2
    rw [hc] at this
    simp [isPrim] at this
  have hw2 : ∀ kv ∈ ([] : List (String × JsVal)),
      isSensitive r.scrubFields kv.1 = true ∨
      (∀ c, kv.2 = JsVal.ref c → c = freshAddr h ∨ c = pa) := by
    intro kv hkv
    cases hkv
  have hmain := objF_twoLevel
    ((heapDom (h ++ [(freshAddr h, base ++ [("person", JsVal.ref pa)])])).length - 1)
    hA2 hB2 hpane hpers hu2 hfB2 hw2
  have hlen1 : 1 ≤ (heapDom
      (h ++ [(freshAddr h, base ++ [("person", JsVal.ref pa)])])).length := by
    exact List.length_pos.mpr (List.ne_nil_of_mem hnadom)
  have hfuel : (heapDom
      (h ++ [(freshAddr h, base ++ [("person", JsVal.ref pa)])])).length - 1 + 2 =
      (heapDom
      (h ++ [(freshAddr h, base ++ [("person", JsVal.ref pa)])])).length + 1 := by
    omega
  rw [hfuel] at hmain
  have hscrub : scrubObject
      (h ++ [(freshAddr h, base ++ [("person", JsVal.ref pa)])])
      r.scrubFields (freshAddr h) =
      some (SVal.obj (base.map (fun kv => (kv.1, primS kv.2)) ++
        [("person", SVal.obj (pFlds.map (fun kv => (kv.1, primS kv.2))))])) := by
    unfold scrubObject
    rw [hmain]
    have hmapu : base.map (stepF r.scrubFields) =
        base.map (fun kv => (kv.1, primS kv.2)) :=
      List.map_congr_left
        (fun kv hkv => stepF_prim (hbase kv hkv).2.1 (hbase kv hkv).2.2)
    have hmapB : pFlds.map (stepF r.scrubFields) =
        pFlds.map (fun kv => (kv.1, primS kv.2)) :=
      List.map_congr_left
        (fun kv hkv => stepF_prim (hperF kv hkv).1 (hperF kv hkv).2)
    rw [hmapu, hmapB]
    rfl
  have hscrubTop : scrubTopFields
      (h ++ [(freshAddr h, base ++ [("person", JsVal.ref pa)])])
      r.scrubFields (freshAddr h) =
      base.map (fun kv => (kv.1, primS kv.2)) ++
        [("person", SVal.obj (pFlds.map (fun kv => (kv.1, primS kv.2))))] := by
    unfold scrubTopFields
    rw [hscrub]
  refine ⟨{ config :=
              { r.config with
                payload := some (freshAddr h),
                environment :=
                  some (r.config.environment.getD "production") },
            scrubFields :=
              DEFAULT_SCRUB_FIELDS ++ r.config.scrubFields.getD [] },
    ?_, ?_, ?_, ?_, ?_, ?_, ?_, ?_⟩
  · rw [hwp]
    exact hok2
  · intro x hx
    rw [hwp]
    exact lookup_append_left x h _ hx
  · rfl
  · exact hsf4
  · rw [hwp]
    exact hA2
  · intro ctx
    cases ctx with
    | none => rfl
    | some c =>
      obtain ⟨cp, creq, ccus, cfp, ctt, cuu⟩ := c
      cases cp <;> cases creq <;> cases ccus <;> cases cfp <;> cases ctt <;>
        cases cuu <;> rfl
  · rw [hwp]
    show (buildPayload _ _ level now none).custom = _
    simp only [buildPayload]
    rw [hsf4, hscrubTop]
  · rw [hwp]
    show List.lookup "person" (((buildPayload _ _ level now none).custom).getD [])
      = _
    simp only [buildPayload]
    rw [hsf4, hscrubTop]
    have hnp : "person" ∉
        (base.map (fun kv => (kv.1, primS kv.2))).map Prod.fst := by
      intro hmem
      simp only [List.map_map, List.mem_map] at hmem
      obtain ⟨kv, hkv, hq⟩ := hmem
      exact (hbase kv hkv).1 hq
    rw [Option.getD_some, lookup_append_right _ _ _ hnp]
    simp [List.lookup]

/-- C10 witness heap: config payload `{app: "shop"}` at address 1, person
`{id: "u1", email: "e@x"}` at address 2. -/
def hC10 : Heap :=
  [(1, [("app", JsVal.str "shop")]),
   (2, [("id", JsVal.str "u1"), ("email", JsVal.str "e@x")])]

/-- The configuration of C10's witness. -/
def cfg10 : RollbarConfig := { accessToken := "tok", payload := some 1 }

/-- The client `mkRollbar cfg10` constructs. -/
def r10 : RollbarClient :=
  { config := { cfg10 with environment := some "production" },
    scrubFields := DEFAULT_SCRUB_FIELDS ++ [] }

/-- Witness for C10 at a concrete heap, configuration and person: the
derived client exists, its payload is the fresh object, the built payload
carries the scrubbed person under `custom.person`, and `data.person` stays
absent. -/
theorem c10_withPerson_person_under_custom_witness :
    ∃ r2, (withPerson r10 hC10 2).2 = Except.ok r2 ∧
      r2.config.payload = some 3 ∧
      List.lookup "person"
          (((buildPayload (withPerson r10 hC10 2).1 r2 "error" 0 none).custom).getD [])
        = some (SVal.obj [("id", SVal.str "u1"), ("email", SVal.str "e@x")]) ∧
      (buildPayload (withPerson r10 hC10 2).1 r2 "error" 0 none).person = none := by
  obtain ⟨r2, hok2, hheap, hpay2, hsf2, hlook, hperson, hcustom, hlookP⟩ :=
    c10_withPerson_person_under_custom hC10 cfg10 r10 1 2
      [("app", JsVal.str "shop")]
      [("id", JsVal.str "u1"), ("email", JsVal.str "e@x")]
      "error" 0 rfl rfl rfl rfl (by decide) (by decide) (by decide)
  exact ⟨r2, hok2, hpay2, hlookP, hperson none⟩
